import Mathlib

/-!
Verification development for the streaming tool-orchestration protocol of the
gemcomputer-copilot repository.

Server side (`app/api/chat/route.ts`): the `POST` handler runs a session loop.
Each generation round consumes the model's stream of parts; text parts are
forwarded as `text-delta` events; each function-call part is announced
(`tool-call-start`, `tool-name-delta`, `tool-argument-delta` slices,
`tool-input-available`), recorded in `functionCalls`, and dispatched as an
async task (`toolPromise`) whose synchronous prefix runs at dispatch and whose
later segments run when the awaited adapter primitives resolve.  After
`Promise.all` the loop takes a settle screenshot, emits one
`screenshot-update`, and appends three turns to the chat history.

The embedding models each dispatched task as a synchronous segment followed by
a list of suspended segments; an explicit schedule interleaves the suspended
segments of concurrently running tasks (the scheduler may run any number of
other tasks' segments at each suspension point, which subsumes the event-loop
interleavings of the original; task segments that would resume between model
stream chunks are scheduled after the chunk loop, which does not affect
per-call event order, push order within a task, or the settle phase).
External collaborators are parameters: the adapter outcome oracle (`oras`),
`JSON.parse` on string-typed arguments (`jsParse`), `JSON.stringify`
(`stringify`), and `Date.now()` (`callTime`).

Client side (`lib/use-custom-chat.ts`): the event-sourced reducer that folds
wire events into the message list, with `Date.now()`/`Math.random()` supplied
by an explicit generator.
-/

namespace GemCopilot

/-- `resolution.x` from `lib/e2b/tool`.  Modelled from the spec: the display
resolution constants are exported by a module not present in the sources; the
concrete value is immaterial to every property proved here. -/
def resolutionX : Nat := 1024

/-- `resolution.y` from `lib/e2b/tool` (see `resolutionX`). -/
def resolutionY : Nat := 768

/-- A function response payload pushed into `functionResponses`:
either `{ result: string }` or `{ error: string }`. -/
inductive Resp where
  | result (s : String)
  | error (s : String)
deriving DecidableEq, Repr

/-- `ToolResponseRecord`: `{ name, response }`. -/
structure RespRecord where
  name : String
  resp : Resp
deriving DecidableEq, Repr

/-- `ToolOutputPayload`: `{type:"text",text,status?}` or
`{type:"image",data,resolution}`. -/
inductive ToolOutput where
  | text (text : String) (status : Option String)
  | image (data : String) (width height : Nat)
deriving DecidableEq, Repr

/-- A tool call id.  On the wire it is the string
`call_${toolCallIndex}_${Date.now()}`; since the decimal digits of the two
numbers are separated by an underscore the string determines the pair, so the
id is modelled as the pair itself. -/
structure CallId where
  index : Nat
  time : Nat
deriving DecidableEq, Repr

/-- The arguments object of a tool call, restricted to the fields the route
reads (`ComputerUseArgs & BashCommandArgs`); every field is optional, as in
the source types. -/
structure Args where
  action : Option String := none
  coordinate : Option (Int × Int) := none
  start_coordinate : Option (Int × Int) := none
  text : Option String := none
  duration : Option Nat := none
  scroll_direction : Option String := none
  scroll_amount : Option Nat := none
  command : Option String := none
deriving DecidableEq, Repr

/-- The empty arguments object `{}`. -/
def Args.empty : Args := {}

/-- Wire events sent with `sendEvent` (server side). Field layout follows the
JSON records the route enqueues; `textDelta` carries the literal `id:
"default"` field as `sid`. -/
inductive Event where
  | textDelta (delta : String) (sid : String)
  | toolCallStart (id : CallId) (index : Nat)
  | toolNameDelta (id : CallId) (toolName : String) (index : Nat)
  | toolArgumentDelta (id : CallId) (delta : String) (index : Nat)
  | toolInputAvailable (id : CallId) (toolName : String) (input : Args)
  | toolOutputAvailable (id : CallId) (output : ToolOutput)
  | screenshotUpdate (screenshot : String) (resolution : Option (Nat × Nat))
  | errorEv (errorText : String)
deriving DecidableEq, Repr

/-- The `toolCallId` field of an event, when it has one. -/
def Event.callId? : Event → Option CallId
  | .toolCallStart id _ => some id
  | .toolNameDelta id _ _ => some id
  | .toolArgumentDelta id _ _ => some id
  | .toolInputAvailable id _ _ => some id
  | .toolOutputAvailable id _ => some id
  | _ => none

/-- Execution-surface primitives the route awaits on the `desktop` handle. -/
inductive Prim where
  | capture
  | moveMouse (x y : Int)
  | leftClick
  | doubleClick
  | rightClick
  | write (s : String)
  | press (k : String)
  | scroll (dir : String) (amount : Nat)
  | drag (sx sy ex ey : Int)
  | runCommand (cmd : String)
  | sleep (secs : Nat)
deriving DecidableEq, Repr

/-- Outcome of one awaited primitive: a resolution carrying returned data
(`data` = screenshot bytes or stdout, `data2` = stderr; both ignored by
primitives that return nothing) or a rejection with an error message. -/
inductive PrimOutcome where
  | ok (data data2 : String)
  | err (msg : String)
deriving DecidableEq, Repr

/-- One segment of a dispatched tool task: the primitives awaited since the
previous suspension point, then the events emitted and the
`functionResponses` pushes performed once they resolve.  The first segment of
a task is its synchronous prefix. -/
structure Seg where
  prims : List Prim := []
  events : List Event := []
  pushes : List RespRecord := []
deriving DecidableEq, Repr

/-- The empty segment (a task part that does nothing observable). -/
def emptySeg : Seg := {}

/-- The gate message built at route.ts:315. -/
def requirementText : String :=
  s!"First computer action must be a screenshot at resolution {resolutionX}x{resolutionY}. Please perform a screenshot before continuing."

/-- route.ts:457. -/
def missingCommandText : String := "Missing command for bash_command tool invocation"

/-- The primitives awaited and the success `resultText` for the pointer /
keyboard / scroll / drag actions of `computer_use` (the `switch` cases other
than `screenshot` and `wait`); `none` for an unrecognized action. -/
def motionSpec (args : Args) (a : String) : Option (List Prim × String) :=
  if a = "left_click" then
    let (x, y) := args.coordinate.getD (0, 0)
    some ([.moveMouse x y, .leftClick], s!"Left clicked at {x}, {y}")
  else if a = "double_click" then
    let (x, y) := args.coordinate.getD (0, 0)
    some ([.moveMouse x y, .doubleClick], s!"Double clicked at {x}, {y}")
  else if a = "right_click" then
    let (x, y) := args.coordinate.getD (0, 0)
    some ([.moveMouse x y, .rightClick], s!"Right clicked at {x}, {y}")
  else if a = "mouse_move" then
    let (x, y) := args.coordinate.getD (0, 0)
    some ([.moveMouse x y], s!"Moved mouse to {x}, {y}")
  else if a = "type" then
    let t := args.text.getD ""
    some ([.write t], s!"Typed: {t}")
  else if a = "key" then
    let k := args.text.getD ""
    some ([.press (if k = "Return" then "enter" else k)], s!"Pressed key: {k}")
  else if a = "scroll" then
    let dir := args.scroll_direction.getD "down"
    let amt := args.scroll_amount.getD 3
    some ([.scroll dir amt], s!"Scrolled {dir} by {amt} clicks")
  else if a = "left_click_drag" then
    let (sx, sy) := args.start_coordinate.getD (0, 0)
    let (ex, ey) := args.coordinate.getD (0, 0)
    some ([.drag sx sy ex ey], s!"Dragged from ({sx}, {sy}) to ({ex}, {ey})")
  else
    none

/-- Run a sequence of awaited primitives against the per-call oracle starting
at slot `k`: returns the primitives actually invoked (a rejection stops the
sequence), the error message if one rejected, and the next oracle slot. -/
def runPrims (ora : Nat → PrimOutcome) (k : Nat) :
    List Prim → List Prim × Option String × Nat
  | [] => ([], none, k)
  | p :: ps =>
    match ora k with
    | .ok _ _ =>
      let (qs, e, k') := runPrims ora (k + 1) ps
      (p :: qs, e, k')
    | .err m => ([p], some m, k + 1)

/-- The screenshot taken after a completed non-screenshot `computer_use`
action (route.ts:445-453) or after a bash command (route.ts:474-480): one more
suspension on `desktop.screenshot()`; a rejection lands in the task's `catch`,
which emits an `error` event and pushes a second `functionResponses` entry. -/
def postCaptureSegs (name : String) (res : PrimOutcome) : List Seg :=
  match res with
  | .ok img _ =>
    [{ prims := [.capture],
       events := [.screenshotUpdate img (some (resolutionX, resolutionY))] }]
  | .err m =>
    [{ prims := [.capture], events := [.errorEv m],
       pushes := [⟨name, .error m⟩] }]

/-- The suspended segments of a `computer_use` call that has passed the
initial-screenshot gate (the `switch (action)` at route.ts:334-453), and its
synchronous prefix (nonempty only for the `default` case, which emits its
output before the first `await`). -/
def computerSegs (id : CallId) (ora : Nat → PrimOutcome) (args : Args) :
    Seg × List Seg :=
  match args.action with
  | some a =>
    if a = "screenshot" then
      (emptySeg,
        match ora 0 with
        | .ok img _ =>
          [{ prims := [.capture],
             events := [.screenshotUpdate img (some (resolutionX, resolutionY)),
               .toolOutputAvailable id
                 (.image img resolutionX resolutionY)],
             pushes := [⟨"computer_use",
               .result s!"Screenshot taken successfully at {resolutionX}x{resolutionY}"⟩] }]
        | .err m =>
          [{ prims := [.capture], events := [.errorEv m],
             pushes := [⟨"computer_use", .error m⟩] }])
    else if a = "wait" then
      let d := Nat.min (match args.duration with | none => 1 | some 0 => 1 | some n => n) 2
      (emptySeg,
        { prims := [.sleep d],
          events := [.toolOutputAvailable id (.text s!"Waited for {d} seconds" none)],
          pushes := [⟨"computer_use", .result s!"Waited for {d} seconds"⟩] }
        :: postCaptureSegs "computer_use" (ora 1))
    else
      match motionSpec args a with
      | some (ps, txt) =>
        let (invoked, e, k) := runPrims ora 0 ps
        match e with
        | some m =>
          (emptySeg,
            [{ prims := invoked, events := [.errorEv m],
               pushes := [⟨"computer_use", .error m⟩] }])
        | none =>
          (emptySeg,
            { prims := invoked,
              events := [.toolOutputAvailable id (.text txt none)],
              pushes := [⟨"computer_use", .result txt⟩] }
            :: postCaptureSegs "computer_use" (ora k))
      | none =>
        ({ events := [.toolOutputAvailable id (.text s!"Unknown action: {a}" none)],
           pushes := [⟨"computer_use", .result s!"Unknown action: {a}"⟩] },
          postCaptureSegs "computer_use" (ora 0))
  | none =>
    ({ events := [.toolOutputAvailable id (.text "Unknown action: undefined" none)],
       pushes := [⟨"computer_use", .result "Unknown action: undefined"⟩] },
      postCaptureSegs "computer_use" (ora 0))

/-- The segments of a `bash_command` call (route.ts:454-481).  A missing or
empty `command` is a synchronous `throw` caught by the task's own `catch`. -/
def bashSegs (id : CallId) (ora : Nat → PrimOutcome) (args : Args) :
    Seg × List Seg :=
  match args.command with
  | some c =>
    if c = "" then
      ({ events := [.errorEv missingCommandText],
         pushes := [⟨"bash_command", .error missingCommandText⟩] }, [])
    else
      (emptySeg,
        match ora 0 with
        | .ok out errOut =>
          let output :=
            if out ≠ "" then out
            else if errOut ≠ "" then errOut
            else "(Command executed successfully with no output)"
          { prims := [.runCommand c],
            events := [.toolOutputAvailable id (.text output none)],
            pushes := [⟨"bash_command", .result output⟩] }
          :: postCaptureSegs "bash_command" (ora 1)
        | .err m =>
          [{ prims := [.runCommand c], events := [.errorEv m],
             pushes := [⟨"bash_command", .error m⟩] }])
  | none =>
    ({ events := [.errorEv missingCommandText],
       pushes := [⟨"bash_command", .error missingCommandText⟩] }, [])

/-- Dispatch of one tool task (`toolPromise`, route.ts:303-494): given the
session gate `agentHasTakenInitialScreenshot` at dispatch, yields the gate
after the synchronous prefix, the synchronous segment, and the suspended
segments.  The gate check and the `Blocked` short-circuit (route.ts:313-332)
run synchronously before any `await`; a tool name other than the two declared
tools leaves the `try` body without doing anything. -/
def execCall (gate : Bool) (fcName : String) (id : CallId)
    (ora : Nat → PrimOutcome) (args : Args) : Bool × Seg × List Seg :=
  if fcName = "computer_use" then
    if !gate && args.action ≠ some "screenshot" then
      (false,
        { events := [.toolOutputAvailable id (.text requirementText (some "blocked"))],
          pushes := [⟨"computer_use", .error requirementText⟩] }, [])
    else
      let (syncSeg, rest) := computerSegs id ora args
      (true, syncSeg, rest)
  else if fcName = "bash_command" then
    let (syncSeg, rest) := bashSegs id ora args
    (gate, syncSeg, rest)
  else
    (gate, emptySeg, [])

/-- `fc.args` of a streamed function-call fragment: a string payload, an
object payload, or anything else (absent / non-object). -/
inductive FcArgs where
  | strArg (s : String)
  | objArg (a : Args)
  | noArg
deriving DecidableEq, Repr

/-- One part of the generation stream for a turn (the `content.parts`
entries; the `chunk.candidates?.[0].content` unwrapping is elided, as chunks
only concatenate their parts). -/
inductive GenPart where
  | text (s : String)
  | functionCall (name : String) (rawArgs : FcArgs)
deriving DecidableEq, Repr

/-- route.ts:251-261: a string payload goes through `JSON.parse`, degrading to
`{}` on failure; an object payload is used as-is; anything else becomes `{}`. -/
def parseFcArgs (jsParse : String → Option Args) : FcArgs → Args
  | .strArg s => (jsParse s).getD Args.empty
  | .objArg a => a
  | .noArg => Args.empty

/-- External collaborators of one generation round, passed explicitly:
`JSON.parse` / `JSON.stringify` from the JS runtime, `Date.now()` at each
call creation, the adapter outcome `oras i k` for the `k`-th awaited
primitive of call `i`, and the settle-screenshot outcome. -/
structure TurnEnv where
  jsParse : String → Option Args
  stringify : Args → String
  callTime : Nat → Nat
  oras : Nat → Nat → PrimOutcome
  settle : PrimOutcome

/-- A recorded tool call (`functionCalls` entry) together with its dispatched
task: the synchronous segment already ran; `rest` are the suspended
segments. -/
structure CallRec where
  id : CallId
  fcName : String
  args : Args
  sync : Seg
  rest : List Seg
deriving DecidableEq, Repr

/-- route.ts:247: the wire tool name. -/
def wireName (fcName : String) : String :=
  if fcName = "computer_use" then "computer" else "bash"

/-- Splitting a character list into successive 10-character slices, with a
structural fuel argument (the fuel is always at least the list length, so
the `0` fallback is never reached; each step consumes at least one
character). -/
def chunkGo : Nat → List Char → List String
  | _, [] => []
  | 0, l => [String.mk l]
  | fuel + 1, c :: cs =>
    String.mk ((c :: cs).take 10) :: chunkGo fuel ((c :: cs).drop 10)

/-- Split a string into the successive 10-character slices
`argsStr.slice(i, i + 10)` of route.ts:277-284 (an empty string yields no
slices, as the `for` loop body never runs). -/
def chunk10 (s : String) : List String :=
  chunkGo s.data.length s.data

/-- The announcement events for one discovered call (route.ts:263-291). -/
def announceEvents (stringify : Args → String) (id : CallId) (idx : Nat)
    (wname : String) (args : Args) : List Event :=
  .toolCallStart id idx
    :: .toolNameDelta id wname idx
    :: (chunk10 (stringify args)).map (fun d => .toolArgumentDelta id d idx)
    ++ [.toolInputAvailable id wname args]

/-- Accumulated state of the chunk loop: the per-turn call counter
`toolCallIndex`, the session gate, the events emitted so far, the
`functionCalls` records (with their tasks), and the `functionResponses`
pushed so far (synchronous pushes only, during this phase). -/
structure BuildState where
  idx : Nat := 0
  gate : Bool
  events : List Event := []
  calls : List CallRec := []
  responses : List RespRecord := []

/-- Processing of one stream part inside the chunk loop (route.ts:239-498):
text is forwarded; a function call is announced, recorded, and its task's
synchronous prefix runs immediately. -/
def buildOne (env : TurnEnv) (st : BuildState) : GenPart → BuildState
  | .text s => { st with events := st.events ++ [.textDelta s "default"] }
  | .functionCall name raw =>
    let args := parseFcArgs env.jsParse raw
    let id : CallId := ⟨st.idx, env.callTime st.idx⟩
    let (gate', syncSeg, rest) := execCall st.gate name id (env.oras st.idx) args
    { idx := st.idx + 1
      gate := gate'
      events := st.events ++ announceEvents env.stringify id st.idx (wireName name) args
        ++ syncSeg.events
      calls := st.calls ++ [⟨id, name, args, syncSeg, rest⟩]
      responses := st.responses ++ syncSeg.pushes }

/-- The whole chunk loop of one generation round. -/
def build (env : TurnEnv) (gate0 : Bool) (parts : List GenPart) : BuildState :=
  parts.foldl (buildOne env) { gate := gate0 }

/-- All segments of a list of tasks, flushed in task order (events first,
pushes second). -/
def flushTasks (tasks : List (List Seg)) : List Event × List RespRecord :=
  match tasks with
  | [] => ([], [])
  | t :: ts =>
    let (evs, ps) := flushTasks ts
    ((t.map Seg.events).flatten ++ evs, (t.map Seg.pushes).flatten ++ ps)

/-- Interleaved execution of the suspended task segments.  Each schedule entry
names the task whose next segment resolves; an entry naming an exhausted or
absent task is skipped; once the schedule is spent the remaining segments are
flushed in task order (`Promise.all` guarantees every task finishes before
the settle phase, and any finishing order is reachable by a suitable
schedule). -/
def runSched : List Nat → List (List Seg) → List Event × List RespRecord
  | [], tasks => flushTasks tasks
  | s :: sched, tasks =>
    match tasks.get? s with
    | some (seg :: more) =>
      let (evs, ps) := runSched sched (tasks.set s more)
      (seg.events ++ evs, seg.pushes ++ ps)
    | _ => runSched sched tasks

/-- Roles of a `GenerativeMessage`. -/
inductive GRole where
  | user
  | model
deriving DecidableEq, Repr

/-- `GenerativePart`. -/
inductive GPart where
  | text (s : String)
  | inlineData (mimeType data : String)
  | functionCall (name : String) (args : Args)
  | functionResponse (name : String) (resp : Resp)
deriving DecidableEq, Repr

/-- `GenerativeMessage`. -/
structure GMsg where
  role : GRole
  parts : List GPart
deriving DecidableEq, Repr

/-- Result of one iteration of the `while (true)` session loop. -/
structure TurnResult where
  events : List Event
  responses : List RespRecord
  calls : List CallRec
  gate : Bool
  appended : List GMsg
  closed : Bool
  killed : Bool
deriving Repr

/-- One generation round (route.ts:223-550): run the chunk loop, join the
batch (`await Promise.all`), and either settle — one fresh capture, one
`screenshot-update`, three history turns appended — or, with no tool calls,
close the stream.  A rejected settle capture reaches the outer `catch`
(route.ts:553-561): the desktop is killed, an `error` event is emitted, and
the stream closes. -/
def runTurn (env : TurnEnv) (gate0 : Bool) (sched : List Nat)
    (parts : List GenPart) : TurnResult :=
  let b := build env gate0 parts
  let (bEvents, bPushes) := runSched sched (b.calls.map CallRec.rest)
  let events := b.events ++ bEvents
  let responses := b.responses ++ bPushes
  if b.calls.isEmpty then
    { events := events, responses := responses, calls := b.calls, gate := b.gate
      appended := [], closed := true, killed := false }
  else
    match env.settle with
    | .ok img _ =>
      { events := events ++ [.screenshotUpdate img (some (resolutionX, resolutionY))]
        responses := responses
        calls := b.calls
        gate := b.gate
        appended :=
          [⟨.model, b.calls.map fun c => .functionCall c.fcName c.args⟩,
           ⟨.user, responses.map fun r => .functionResponse r.name r.resp⟩,
           ⟨.user, [.text s!"All {b.calls.length} action(s) completed. Continue with the next steps. Here is the current screen:",
                    .inlineData "image/png" img]⟩]
        closed := false, killed := false }
    | .err m =>
      { events := events ++ [.errorEv m], responses := responses, calls := b.calls
        gate := b.gate, appended := [], closed := true, killed := true }

/-! ### Client reducer (`lib/use-custom-chat.ts`)

The reducer folds decoded wire events into the message list.  Message ids and
screenshot timestamps come from `Date.now()` / `Math.random()`; the embedding
makes that supply explicit as a generator `gen : Nat → ι × τ` consulted at the
`n`-th generation step (`ι` the id type, `τ` the timestamp type), so that one
reducer definition covers both a real execution (`ι = String`, `gen` the
clock/randomness of that run) and the canonical run (`ι = τ = Nat`,
`gen n = (n, n)`).  `JSON.parse` used on the streamed argument text is the
same explicit `parse` parameter in every fold. -/

/-- The client's view of a tool invocation
(`ToolInvocationPart.toolInvocation`). -/
structure ToolInv where
  toolCallId : String
  toolName : String
  tstate : String
  args : Args
  argsText : String
  result : Option ToolOutput
deriving DecidableEq, Repr

/-- A `MessagePart` of the client data model.  The reducer itself only ever
creates screenshot and tool-invocation parts; plain text lives in
`Message.content`. -/
inductive CPart (τ : Type) where
  | textPart (text : String)
  | screenshotPart (screenshot : String) (timestamp : τ)
      (resolution : Option (Nat × Nat))
  | toolPart (inv : ToolInv)
deriving DecidableEq, Repr

/-- A client `Message`.  `parts` is the optional `parts?` field: messages
opened by `appendAssistantText` leave it absent. -/
structure CMsg (ι τ : Type) where
  id : ι
  role : String
  content : String
  parts : Option (List (CPart τ))
deriving DecidableEq, Repr

/-- The reducer's state: the message list, `toolMessageMapRef` (newest entry
first, as `Map.set` overwrites), `currentAssistantTextMessageIdRef`, the
generation counter, and whether an `error` event has aborted the stream loop
(the rethrown error leaves the `while` loop, so later events are ignored). -/
structure CState (ι τ : Type) where
  msgs : List (CMsg ι τ) := []
  toolMap : List (String × ι) := []
  currentTextId : Option ι := none
  ctr : Nat := 0
  halted : Bool := false
deriving DecidableEq, Repr

/-- The empty client state (a fresh `append` resets the map and the current
text-message ref, and the message list under consideration starts empty). -/
def cInit {ι τ : Type} : CState ι τ := {}

/-- A decoded wire event as the client reads it (`data.type` dispatch);
`otherEv` stands for any record whose `type` matches no branch. -/
inductive CEvent where
  | textDelta (delta : String)
  | toolCallStart (tid : String)
  | toolNameDelta (tid : String) (name : String)
  | toolArgumentDelta (tid : String) (delta : String)
  | toolInputAvailable (tid : String) (name : String) (input : Args)
  | toolOutputAvailable (tid : String) (output : ToolOutput)
  | screenshotUpdate (screenshot : String) (resolution : Option (Nat × Nat))
  | errorEv (errorText : String)
  | otherEv
deriving DecidableEq, Repr

/-- `Map.get` on the newest-first association list. -/
def mapGet {ι : Type} (m : List (String × ι)) (k : String) : Option ι :=
  match m with
  | [] => none
  | (k', v) :: m' => if k' = k then some v else mapGet m' k

/-- Update the first list element satisfying `p` (the `findIndex` /
copy-and-`set` pattern of the reducer; no match leaves the list unchanged,
matching the `index === -1 → return prev` branches). -/
def updFirst {α : Type} (p : α → Bool) (f : α → α) : List α → List α
  | [] => []
  | x :: xs => if p x then f x :: xs else x :: updFirst p f xs

/-- The `findIndex` predicate on parts: the tool-invocation part carrying
`tid`. -/
def partIsTool {τ : Type} (tid : String) : CPart τ → Bool
  | .toolPart inv => inv.toolCallId = tid
  | _ => false

/-- In-place update of the matched tool part. -/
def partUpd {τ : Type} (f : ToolInv → ToolInv) : CPart τ → CPart τ
  | .toolPart inv => .toolPart (f inv)
  | q => q

/-- The per-message step of `mutateToolInvocation`: bail out when the message
has no parts (`!targetMessage.parts || targetMessage.parts.length === 0`),
otherwise update the first part carrying `tid` in place. -/
def msgUpd {ι τ : Type} (tid : String) (f : ToolInv → ToolInv) (m : CMsg ι τ) :
    CMsg ι τ :=
  match m.parts with
  | none => m
  | some ps =>
    if ps.isEmpty then m
    else { m with parts := some (updFirst (partIsTool tid) (partUpd f) ps) }

/-- `mutateToolInvocation` (use-custom-chat.ts:155-193): look the call id up
in the map, find that message, find its tool part, and update it in place;
any lookup failure returns the previous state unchanged. -/
def mutateTool {ι τ : Type} [DecidableEq ι] (s : CState ι τ) (tid : String)
    (f : ToolInv → ToolInv) : CState ι τ :=
  match mapGet s.toolMap tid with
  | none => s
  | some mid =>
    { s with msgs := updFirst (fun m => m.id = mid) (msgUpd tid f) s.msgs }

/-- One fold step of the client reducer (the `data.type` dispatch at
use-custom-chat.ts:211-304). -/
def cstep {ι τ : Type} [DecidableEq ι] (parse : String → Option Args)
    (gen : Nat → ι × τ) (s : CState ι τ) (e : CEvent) : CState ι τ :=
  if s.halted then s else
  match e with
  | .textDelta d =>
    if d = "" then s
    else
      let pushNew : CState ι τ :=
        let nid := (gen s.ctr).1
        { s with msgs := s.msgs ++ [⟨nid, "assistant", d, none⟩],
                 currentTextId := some nid, ctr := s.ctr + 1 }
      match s.currentTextId with
      | some cid =>
        if s.msgs.any (fun m => m.id = cid) then
          { s with msgs :=
              (updFirst (fun m => m.id = cid)
                (fun m => { m with content := m.content ++ d }) s.msgs) }
        else pushNew
      | none => pushNew
  | .toolCallStart tid =>
    let mid := (gen s.ctr).1
    { s with
      msgs := s.msgs ++ [⟨mid, "assistant", "",
        some [.toolPart ⟨tid, "", "streaming", Args.empty, "", none⟩]⟩]
      toolMap := (tid, mid) :: s.toolMap
      currentTextId := none
      ctr := s.ctr + 1 }
  | .toolNameDelta tid name =>
    mutateTool s tid (fun inv => { inv with toolName := name })
  | .toolArgumentDelta tid d =>
    mutateTool s tid (fun inv =>
      let nt := inv.argsText ++ d
      { inv with argsText := nt, args := (parse nt).getD inv.args })
  | .toolInputAvailable tid _ input =>
    let s' := mutateTool s tid (fun inv => { inv with args := input, tstate := "call" })
    { s' with currentTextId := none }
  | .toolOutputAvailable tid out =>
    let s' := mutateTool s tid
      (fun inv => { inv with tstate := "result", result := some out })
    { s' with currentTextId := none }
  | .screenshotUpdate sc rz =>
    let (mid, t) := gen s.ctr
    { s with
      msgs := s.msgs ++ [⟨mid, "assistant", "", some [.screenshotPart sc t rz]⟩]
      currentTextId := none
      ctr := s.ctr + 1 }
  | .errorEv _ => { s with halted := true }
  | .otherEv => s

/-- Folding the reducer over an event sequence from the empty state. -/
def cfold {ι τ : Type} [DecidableEq ι] (parse : String → Option Args)
    (gen : Nat → ι × τ) (evs : List CEvent) : CState ι τ :=
  evs.foldl (cstep parse gen) cInit

/-! ### Basic lemmas about the chunk loop and the session round -/

/-- Whether a stream part is a function-call fragment. -/
def GenPart.isFC : GenPart → Bool
  | .functionCall _ _ => true
  | .text _ => false

theorem buildOne_calls_text (env : TurnEnv) (st : BuildState) (s : String) :
    (buildOne env st (.text s)).calls = st.calls := rfl

theorem buildOne_calls_fc (env : TurnEnv) (st : BuildState) (name : String)
    (raw : FcArgs) :
    ∃ c, (buildOne env st (.functionCall name raw)).calls = st.calls ++ [c] := by
  simp only [buildOne]
  rcases hE : execCall st.gate name ⟨st.idx, env.callTime st.idx⟩ (env.oras st.idx)
      (parseFcArgs env.jsParse raw) with ⟨g, sy, rs⟩
  exact ⟨_, rfl⟩

/-- A fold of `buildOne` over parts without function calls discovers no tool
calls. -/
theorem foldl_buildOne_calls_no_fc (env : TurnEnv) (parts : List GenPart)
    (st : BuildState) (h : ∀ p ∈ parts, p.isFC = false) :
    (parts.foldl (buildOne env) st).calls = st.calls := by
  induction parts generalizing st with
  | nil => rfl
  | cons p ps ih =>
    simp only [List.foldl_cons]
    rw [ih _ (fun q hq => h q (List.mem_cons_of_mem _ hq))]
    cases p with
    | text s => rfl
    | functionCall n r =>
      have := h _ (List.mem_cons_self _ _)
      simp [GenPart.isFC] at this

/-- The `functionCalls` list only grows as the chunk loop advances. -/
theorem foldl_buildOne_calls_prefix (env : TurnEnv) (parts : List GenPart)
    (st : BuildState) :
    ∃ l, (parts.foldl (buildOne env) st).calls = st.calls ++ l := by
  induction parts generalizing st with
  | nil => exact ⟨[], by simp⟩
  | cons p ps ih =>
    simp only [List.foldl_cons]
    cases p with
    | text s =>
      obtain ⟨l, hl⟩ := ih (buildOne env st (.text s))
      exact ⟨l, by simpa [buildOne_calls_text] using hl⟩
    | functionCall n r =>
      obtain ⟨c, hc⟩ := buildOne_calls_fc env st n r
      obtain ⟨l, hl⟩ := ih (buildOne env st (.functionCall n r))
      exact ⟨c :: l, by rw [hl, hc]; simp⟩

/-- Any function-call fragment in the stream yields at least one recorded
tool call. -/
theorem build_calls_ne_nil_of_mem_fc (env : TurnEnv) (gate0 : Bool)
    (parts : List GenPart) (name : String) (raw : FcArgs)
    (h : GenPart.functionCall name raw ∈ parts) :
    (build env gate0 parts).calls ≠ [] := by
  unfold build
  obtain ⟨pre, post, rfl⟩ := List.append_of_mem h
  rw [List.foldl_append, List.foldl_cons]
  obtain ⟨c, hc⟩ := buildOne_calls_fc env (pre.foldl (buildOne env) { gate := gate0 }) name raw
  obtain ⟨l, hl⟩ := foldl_buildOne_calls_prefix env post
    (buildOne env (pre.foldl (buildOne env) { gate := gate0 }) (.functionCall name raw))
  rw [hl, hc]
  simp

/-- When the batch has at least one call and the settle capture succeeds, the
round neither closes the stream nor kills the sandbox, and appends exactly
three turns. -/
theorem runTurn_continues (env : TurnEnv) (gate0 : Bool) (sched : List Nat)
    (parts : List GenPart) (img d : String)
    (hc : (build env gate0 parts).calls ≠ [])
    (hs : env.settle = .ok img d) :
    (runTurn env gate0 sched parts).closed = false ∧
      (runTurn env gate0 sched parts).killed = false ∧
      (runTurn env gate0 sched parts).appended.length = 3 := by
  have hne : (build env gate0 parts).calls.isEmpty = false := by
    simpa [List.isEmpty_iff] using hc
  simp [runTurn, hne, hs]

/-- C8 helper: with no function-call parts the batch is empty. -/
theorem build_calls_nil_of_no_fc (env : TurnEnv) (gate0 : Bool)
    (parts : List GenPart) (h : ∀ p ∈ parts, p.isFC = false) :
    (build env gate0 parts).calls = [] :=
  foldl_buildOne_calls_no_fc env parts _ h

/-- Claim C8: A generation turn that yields zero tool calls stops the session
loop: the stream is closed, the sandbox is left alive, and no further turns
are appended to the transcript. -/
theorem c8_zero_calls_closes (env : TurnEnv) (gate0 : Bool) (sched : List Nat)
    (parts : List GenPart) (h : ∀ p ∈ parts, p.isFC = false) :
    (runTurn env gate0 sched parts).closed = true ∧
      (runTurn env gate0 sched parts).appended = [] ∧
      (runTurn env gate0 sched parts).killed = false := by
  have hnil : (build env gate0 parts).calls = [] :=
    build_calls_nil_of_no_fc env gate0 parts h
  simp [runTurn, hnil]

/-- A concrete environment used by witnesses: `JSON.parse` always fails,
`JSON.stringify` always yields `"{}"`, the clock reads `0`, every adapter
primitive resolves, and the settle capture returns `"shot"`. -/
def env0 : TurnEnv :=
  ⟨fun _ => none, fun _ => "{}", fun _ => 0, fun _ _ => .ok "" "", .ok "shot" ""⟩

/-- Witness for C8 on a one-text-part turn. -/
theorem c8_zero_calls_closes_witness :
    (runTurn env0 false [] [.text "hi"]).closed = true ∧
      (runTurn env0 false [] [.text "hi"]).appended = [] ∧
      (runTurn env0 false [] [.text "hi"]).killed = false :=
  c8_zero_calls_closes env0 false [] [.text "hi"] (by decide)

/-- Claim C7: A function-call fragment whose string argument payload fails to
parse as JSON degrades to the empty arguments object `{}` and the turn
continues: the call is still announced and streamed (with `{}` as its input),
its task is still dispatched, and no turn failure is propagated — a round
containing such a fragment still settles normally instead of closing. -/
theorem c7_malformed_args_degrade (env : TurnEnv) (st : BuildState)
    (name s : String) (h : env.jsParse s = none) :
    parseFcArgs env.jsParse (.strArg s) = Args.empty
    ∧ (buildOne env st (.functionCall name (.strArg s))).calls =
        st.calls ++ [⟨⟨st.idx, env.callTime st.idx⟩, name, Args.empty,
          (execCall st.gate name ⟨st.idx, env.callTime st.idx⟩ (env.oras st.idx) Args.empty).2.1,
          (execCall st.gate name ⟨st.idx, env.callTime st.idx⟩ (env.oras st.idx) Args.empty).2.2⟩]
    ∧ (buildOne env st (.functionCall name (.strArg s))).events =
        st.events
          ++ announceEvents env.stringify ⟨st.idx, env.callTime st.idx⟩ st.idx
              (wireName name) Args.empty
          ++ (execCall st.gate name ⟨st.idx, env.callTime st.idx⟩ (env.oras st.idx)
              Args.empty).2.1.events
    ∧ (∀ gate0 sched parts img d, GenPart.functionCall name (.strArg s) ∈ parts →
        env.settle = .ok img d →
        (runTurn env gate0 sched parts).closed = false) := by
  have hp : parseFcArgs env.jsParse (.strArg s) = Args.empty := by
    simp [parseFcArgs, h]
  refine ⟨hp, ?_, ?_, ?_⟩
  · simp only [buildOne, hp]
  · simp only [buildOne, hp]
  · intro gate0 sched parts img d hmem hs
    exact (runTurn_continues env gate0 sched parts img d
      (build_calls_ne_nil_of_mem_fc env gate0 parts name (.strArg s) hmem) hs).1

/-- Witness for C7 at a concrete unparseable payload. -/
theorem c7_malformed_args_degrade_witness :
    parseFcArgs env0.jsParse (.strArg "not json") = Args.empty
    ∧ (buildOne env0 { gate := false } (.functionCall "bash_command" (.strArg "not json"))).calls =
        [].append [⟨⟨0, env0.callTime 0⟩, "bash_command", Args.empty,
          (execCall false "bash_command" ⟨0, env0.callTime 0⟩ (env0.oras 0) Args.empty).2.1,
          (execCall false "bash_command" ⟨0, env0.callTime 0⟩ (env0.oras 0) Args.empty).2.2⟩]
    ∧ (buildOne env0 { gate := false } (.functionCall "bash_command" (.strArg "not json"))).events =
        [].append (announceEvents env0.stringify ⟨0, env0.callTime 0⟩ 0
            (wireName "bash_command") Args.empty)
          ++ (execCall false "bash_command" ⟨0, env0.callTime 0⟩ (env0.oras 0)
              Args.empty).2.1.events
    ∧ (∀ gate0 sched parts img d,
        GenPart.functionCall "bash_command" (.strArg "not json") ∈ parts →
        env0.settle = .ok img d →
        (runTurn env0 gate0 sched parts).closed = false) :=
  c7_malformed_args_degrade env0 { gate := false } "bash_command" "not json" rfl

/-! ### The initial-screenshot gate (C5) -/

theorem execCall_cu_blocked (id : CallId) (ora : Nat → PrimOutcome) (args : Args)
    (h : args.action ≠ some "screenshot") :
    execCall false "computer_use" id ora args =
      (false,
        { events := [.toolOutputAvailable id (.text requirementText (some "blocked"))],
          pushes := [⟨"computer_use", .error requirementText⟩] }, []) := by
  simp [execCall, h]

theorem execCall_cu_gateTrue (id : CallId) (ora : Nat → PrimOutcome) (args : Args) :
    execCall true "computer_use" id ora args =
      (true, (computerSegs id ora args).1, (computerSegs id ora args).2) := by
  simp [execCall]

theorem execCall_cu_firstScreenshot (id : CallId) (ora : Nat → PrimOutcome)
    (args : Args) (h : args.action = some "screenshot") :
    execCall false "computer_use" id ora args =
      (true, (computerSegs id ora args).1, (computerSegs id ora args).2) := by
  simp [execCall, h]

theorem execCall_bash (g : Bool) (id : CallId) (ora : Nat → PrimOutcome)
    (args : Args) :
    execCall g "bash_command" id ora args =
      (g, (bashSegs id ora args).1, (bashSegs id ora args).2) := by
  simp [execCall]

theorem execCall_gate_other (g : Bool) (name : String) (id : CallId)
    (ora : Nat → PrimOutcome) (args : Args) (h : name ≠ "computer_use") :
    (execCall g name id ora args).1 = g := by
  simp only [execCall, if_neg h]
  split <;> rfl

/-- A `computer_use` call dispatched normally: its task is exactly the
ungated `switch` body. -/
def normalCU (env : TurnEnv) (c : CallRec) : Prop :=
  c.fcName = "computer_use" →
    (c.sync, c.rest) = computerSegs c.id (env.oras c.id.index) c.args

/-- Once the gate is open it stays open and every later `computer_use` call
is dispatched normally. -/
theorem foldl_gate_true_normal (env : TurnEnv) (parts : List GenPart)
    (st : BuildState) (hg : st.gate = true)
    (hst : ∀ c ∈ st.calls, normalCU env c) :
    (parts.foldl (buildOne env) st).gate = true ∧
      ∀ c ∈ (parts.foldl (buildOne env) st).calls, normalCU env c := by
  induction parts generalizing st with
  | nil => exact ⟨hg, hst⟩
  | cons p ps ih =>
    simp only [List.foldl_cons]
    cases p with
    | text s => exact ih _ hg hst
    | functionCall name raw =>
      by_cases hn : name = "computer_use"
      · subst hn
        have hE := execCall_cu_gateTrue ⟨st.idx, env.callTime st.idx⟩ (env.oras st.idx)
          (parseFcArgs env.jsParse raw)
        refine ih _ ?_ ?_
        · simp only [buildOne]
          rw [hg, hE]
        · intro c hc
          simp only [buildOne] at hc
          rw [hg, hE] at hc
          simp only [List.mem_append, List.mem_singleton] at hc
          rcases hc with hc | rfl
          · exact hst c hc
          · intro _
            rfl
      · refine ih _ ?_ ?_
        · show (buildOne env st (.functionCall name raw)).gate = true
          simp only [buildOne]
          rw [execCall_gate_other _ _ _ _ _ hn]
          exact hg
        · intro c hc
          simp only [buildOne] at hc
          simp only [List.mem_append, List.mem_singleton] at hc
          rcases hc with hc | rfl
          · exact hst c hc
          · intro hcu
            exact absurd hcu hn

/-- Generalized form of C5 over an arbitrary chunk-loop start state whose
gate is still closed and which has discovered no `computer_use` call yet. -/
theorem c5_aux (env : TurnEnv) (parts : List GenPart) (st : BuildState)
    (hg : st.gate = false)
    (hcu : st.calls.filter (fun c => c.fcName = "computer_use") = []) :
    ∀ c, ((parts.foldl (buildOne env) st).calls.filter
        (fun c => c.fcName = "computer_use")).head? = some c →
      (c.args.action ≠ some "screenshot" →
        c.sync = { events := [.toolOutputAvailable c.id (.text requirementText (some "blocked"))],
                   pushes := [⟨"computer_use", .error requirementText⟩] }
          ∧ c.rest = [])
      ∧ (c.args.action = some "screenshot" →
          ∀ c' ∈ (parts.foldl (buildOne env) st).calls.filter
              (fun c => c.fcName = "computer_use"),
            (c'.sync, c'.rest) = computerSegs c'.id (env.oras c'.id.index) c'.args) := by
  induction parts generalizing st with
  | nil =>
    intro c hc
    simp only [List.foldl_nil] at hc
    rw [hcu] at hc
    simp at hc
  | cons p ps ih =>
    simp only [List.foldl_cons]
    cases p with
    | text s => exact ih _ hg hcu
    | functionCall name raw =>
      by_cases hn : name = "computer_use"
      · subst hn
        set args := parseFcArgs env.jsParse raw with hargs
        by_cases ha : args.action = some "screenshot"
        · -- the first computer_use call opens the gate; every cu call is normal
          have hE := execCall_cu_firstScreenshot ⟨st.idx, env.callTime st.idx⟩
            (env.oras st.idx) args ha
          have hst' : (buildOne env st (.functionCall "computer_use" raw)) =
              { idx := st.idx + 1, gate := true,
                events := st.events ++ announceEvents env.stringify
                    ⟨st.idx, env.callTime st.idx⟩ st.idx (wireName "computer_use") args
                  ++ (computerSegs ⟨st.idx, env.callTime st.idx⟩ (env.oras st.idx) args).1.events,
                calls := st.calls ++ [⟨⟨st.idx, env.callTime st.idx⟩, "computer_use", args,
                  (computerSegs ⟨st.idx, env.callTime st.idx⟩ (env.oras st.idx) args).1,
                  (computerSegs ⟨st.idx, env.callTime st.idx⟩ (env.oras st.idx) args).2⟩],
                responses := st.responses ++ (computerSegs ⟨st.idx, env.callTime st.idx⟩
                  (env.oras st.idx) args).1.pushes } := by
            simp only [buildOne, ← hargs]
            rw [hg, hE]
          have hnorm := foldl_gate_true_normal env ps
            (buildOne env st (.functionCall "computer_use" raw)) (by rw [hst']) (by
            intro c hc
            rw [hst'] at hc
            simp only [List.mem_append, List.mem_singleton] at hc
            rcases hc with hc | rfl
            · intro hcu'
              exact absurd (List.filter_eq_nil_iff.mp hcu c hc) (by simp [hcu'])
            · intro _
              rfl)
          intro c hc
          constructor
          · intro hne
            exfalso
            obtain ⟨l, hl⟩ := foldl_buildOne_calls_prefix env ps
              (buildOne env st (.functionCall "computer_use" raw))
            rw [hl, hst'] at hc
            simp only [List.append_assoc, List.singleton_append, List.filter_append,
              hcu, List.nil_append] at hc
            rw [List.filter_cons_of_pos (by simp), List.head?_cons] at hc
            have hceq : _ = c := Option.some.inj hc
            subst hceq
            exact hne ha
          · intro _ c' hc'
            exact hnorm.2 c' (List.mem_filter.mp hc').1 (by
              have := (List.mem_filter.mp hc').2
              simpa using this)
        · -- the first computer_use call is blocked
          have hE := execCall_cu_blocked ⟨st.idx, env.callTime st.idx⟩
            (env.oras st.idx) args ha
          have hst' : (buildOne env st (.functionCall "computer_use" raw)) =
              { idx := st.idx + 1, gate := false,
                events := st.events ++ announceEvents env.stringify
                    ⟨st.idx, env.callTime st.idx⟩ st.idx (wireName "computer_use") args
                  ++ [.toolOutputAvailable ⟨st.idx, env.callTime st.idx⟩
                    (.text requirementText (some "blocked"))],
                calls := st.calls ++ [⟨⟨st.idx, env.callTime st.idx⟩, "computer_use", args,
                  { events := [.toolOutputAvailable ⟨st.idx, env.callTime st.idx⟩
                      (.text requirementText (some "blocked"))],
                    pushes := [⟨"computer_use", .error requirementText⟩] }, []⟩],
                responses := st.responses ++ [⟨"computer_use", .error requirementText⟩] } := by
            simp only [buildOne, ← hargs]
            rw [hg, hE]
          intro c hc
          obtain ⟨l, hl⟩ := foldl_buildOne_calls_prefix env ps
            (buildOne env st (.functionCall "computer_use" raw))
          rw [hl, hst'] at hc
          simp only [List.append_assoc, List.singleton_append, List.filter_append,
            hcu, List.nil_append] at hc
          rw [List.filter_cons_of_pos (by simp), List.head?_cons] at hc
          have hceq : _ = c := Option.some.inj hc
          subst hceq
          exact ⟨fun _ => ⟨rfl, rfl⟩, fun hsc => absurd hsc ha⟩
      · -- not a computer_use call: the gate and the cu-call list are unchanged
        refine ih _ ?_ ?_
        · show (buildOne env st (.functionCall name raw)).gate = false
          simp only [buildOne]
          rw [execCall_gate_other _ _ _ _ _ hn]
          exact hg
        · simp only [buildOne]
          simp only [List.filter_append, hcu, List.nil_append]
          rw [List.filter_cons_of_neg (by simpa using hn)]
          rfl

/-- Claim C5: In a session (gate initially closed), if the first `computer_use`
invocation has `action ≠ screenshot`, its task is the synchronous `Blocked`
short-circuit: the output event is the requirement text with status
`blocked`, the function response recorded for the model is an error, and no
adapter primitive is invoked for it (its task has no suspended segments and
invokes no primitive).  If instead the first `computer_use` invocation is a
screenshot, every `computer_use` call of the turn — the first included — is
dispatched as the normal ungated `switch` body. -/
theorem c5_first_invocation_gate (env : TurnEnv) (parts : List GenPart) :
    ∀ c, ((build env false parts).calls.filter
        (fun c => c.fcName = "computer_use")).head? = some c →
      (c.args.action ≠ some "screenshot" →
        c.sync = { events := [.toolOutputAvailable c.id (.text requirementText (some "blocked"))],
                   pushes := [⟨"computer_use", .error requirementText⟩] }
          ∧ c.rest = [])
      ∧ (c.args.action = some "screenshot" →
          ∀ c' ∈ (build env false parts).calls.filter
              (fun c => c.fcName = "computer_use"),
            (c'.sync, c'.rest) = computerSegs c'.id (env.oras c'.id.index) c'.args) :=
  c5_aux env parts { gate := false } rfl rfl

/-- Witness for C5: a first `computer_use` invocation with `action = "type"`
is blocked. -/
theorem c5_first_invocation_gate_witness :
    (((build env0 false [.functionCall "computer_use" (.objArg { action := some "type" })]).calls.filter
        (fun c => c.fcName = "computer_use")).head? =
      some ⟨⟨0, 0⟩, "computer_use", { action := some "type" },
        { events := [.toolOutputAvailable ⟨0, 0⟩ (.text requirementText (some "blocked"))],
          pushes := [⟨"computer_use", .error requirementText⟩] }, []⟩)
    ∧ ({ action := some "type" } : Args).action ≠ some "screenshot"
    ∧ (⟨⟨0, 0⟩, "computer_use", { action := some "type" },
        { events := [.toolOutputAvailable ⟨0, 0⟩ (.text requirementText (some "blocked"))],
          pushes := [⟨"computer_use", .error requirementText⟩] }, []⟩ : CallRec).sync =
        { events := [.toolOutputAvailable ⟨0, 0⟩ (.text requirementText (some "blocked"))],
          pushes := [⟨"computer_use", .error requirementText⟩] } := by
  refine ⟨by decide, by decide, ?_⟩
  exact (c5_first_invocation_gate env0
    [.functionCall "computer_use" (.objArg { action := some "type" })] _ (by decide)).1
    (by decide) |>.1

/-! ### Unknown `computer_use` actions (C10) -/

/-- The action strings the `switch` recognizes. -/
def recognizedActions : List String :=
  ["screenshot", "wait", "left_click", "double_click", "right_click",
   "mouse_move", "type", "key", "scroll", "left_click_drag"]

theorem motionSpec_none_of_unrecognized (args : Args) (a : String)
    (h : a ∉ recognizedActions) : motionSpec args a = none := by
  simp only [recognizedActions, List.mem_cons, List.not_mem_nil, or_false,
    not_or] at h
  obtain ⟨-, -, h3, h4, h5, h6, h7, h8, h9, h10⟩ := h
  simp [motionSpec, h3, h4, h5, h6, h7, h8, h9, h10]

/-- Claim C10 (amended): Once the initial-screenshot gate is satisfied, a
`computer_use` call with an unrecognized action completes as a non-error:
its synchronous prefix emits a `tool-output-available` text outcome
`Unknown action: <action>` (no `status` marker) and records a `result` (not
`error`) function response; no adapter primitive is invoked for the action
itself — the only primitive of the whole task is the post-action screen
capture — and the session continues to the next generation round. -/
theorem c10_unknown_action_nonerror (id : CallId) (ora : Nat → PrimOutcome)
    (args : Args) (a : String) (hact : args.action = some a)
    (h : a ∉ recognizedActions) :
    execCall true "computer_use" id ora args =
      (true,
        { events := [.toolOutputAvailable id (.text s!"Unknown action: {a}" none)],
          pushes := [⟨"computer_use", .result s!"Unknown action: {a}"⟩] },
        postCaptureSegs "computer_use" (ora 0))
    ∧ ((postCaptureSegs "computer_use" (ora 0)).map Seg.prims).flatten = [.capture]
    ∧ (∀ env gate0 sched parts img d (name : String) (raw : FcArgs),
        GenPart.functionCall name raw ∈ parts →
        TurnEnv.settle env = .ok img d →
        (runTurn env gate0 sched parts).closed = false) := by
  have hs : a ≠ "screenshot" := by
    intro hEq
    exact h (by simp [recognizedActions, hEq])
  have hw : a ≠ "wait" := by
    intro hEq
    exact h (by simp [recognizedActions, hEq])
  refine ⟨?_, ?_, ?_⟩
  · rw [execCall_cu_gateTrue]
    simp [computerSegs, hact, hs, hw, motionSpec_none_of_unrecognized args a h]
  · cases hO : ora 0 <;> simp [postCaptureSegs]
  · intro env gate0 sched parts img d name raw hmem hsettle
    exact (runTurn_continues env gate0 sched parts img d
      (build_calls_ne_nil_of_mem_fc env gate0 parts name raw hmem) hsettle).1

/-- Witness for C10 (amended) at the unrecognized action `"middle_click"`. -/
theorem c10_unknown_action_nonerror_witness :
    execCall true "computer_use" ⟨0, 0⟩ (fun _ => .ok "img" "") { action := some "middle_click" } =
      (true,
        { events := [.toolOutputAvailable ⟨0, 0⟩ (.text "Unknown action: middle_click" none)],
          pushes := [⟨"computer_use", .result "Unknown action: middle_click"⟩] },
        postCaptureSegs "computer_use" (.ok "img" "")) := by
  have := (c10_unknown_action_nonerror ⟨0, 0⟩ (fun _ => .ok "img" "")
    { action := some "middle_click" } "middle_click" rfl (by decide)).1
  simpa using this

/-- Claim C10 (counterexample): The claim fails for the session's *first*
`computer_use` invocation: dispatched with the gate still closed, an
unrecognized action such as `"foo"` is `Blocked` by the initial-screenshot
gate — the output is the requirement text with status `blocked` and the
recorded function response is an error, not the claimed
`Unknown action: foo` result. -/
theorem c10_counterexample :
    "foo" ∉ recognizedActions
    ∧ execCall false "computer_use" ⟨0, 0⟩ (fun _ => .ok "img" "")
        { action := some "foo" } =
      (false,
        { events := [.toolOutputAvailable ⟨0, 0⟩ (.text requirementText (some "blocked"))],
          pushes := [⟨"computer_use", .error requirementText⟩] }, [])
    ∧ requirementText ≠ "Unknown action: foo"
    ∧ Resp.error requirementText ≠ .result "Unknown action: foo" := by
  refine ⟨by decide, ?_, by decide, by decide⟩
  exact execCall_cu_blocked ⟨0, 0⟩ (fun _ => .ok "img" "")
    { action := some "foo" } (by decide)

/-! ### Per-call failure isolation (C4) -/

theorem motionSpec_action_ne (args : Args) (a : String)
    (x : List Prim × String) (h : motionSpec args a = some x) :
    a ≠ "screenshot" ∧ a ≠ "wait" := by
  constructor <;> rintro rfl <;> simp [motionSpec] at h

theorem motionSpec_ne_nil (args : Args) (a : String) (ps : List Prim)
    (txt : String) (h : motionSpec args a = some (ps, txt)) : ps ≠ [] := by
  unfold motionSpec at h
  split_ifs at h <;>
    first
      | exact Option.noConfusion h
      | (simp only [Option.some.injEq, Prod.mk.injEq] at h
         obtain ⟨hps, -⟩ := h
         subst hps
         simp)

/-- The gate result and the synchronous prefix of a dispatched task do not
depend on the adapter oracle (the oracle is only consulted at `await`s, all
of which lie in the suspended segments). -/
theorem execCall_oraIndep (g : Bool) (name : String) (id : CallId)
    (ora ora' : Nat → PrimOutcome) (args : Args) :
    (execCall g name id ora args).1 = (execCall g name id ora' args).1
      ∧ (execCall g name id ora args).2.1 = (execCall g name id ora' args).2.1 := by
  have hcs : ∀ oraA : Nat → PrimOutcome, (computerSegs id oraA args).1 =
      (computerSegs id (fun _ => PrimOutcome.ok "" "") args).1 := by
    intro oraA
    unfold computerSegs
    cases args.action with
    | none => rfl
    | some a =>
      dsimp only
      split_ifs with h1 h2
      · rfl
      · rfl
      · rcases hm : motionSpec args a with - | ⟨ps, txt⟩
        · rfl
        · simp only
          rcases hr : runPrims oraA 0 ps with ⟨inv, e, k⟩
          rcases hr' : runPrims (fun _ => PrimOutcome.ok "" "") 0 ps with ⟨inv', e', k'⟩
          cases e <;> cases e' <;> rfl
  have hbs : ∀ oraA : Nat → PrimOutcome, (bashSegs id oraA args).1 =
      (bashSegs id (fun _ => PrimOutcome.ok "" "") args).1 := by
    intro oraA
    unfold bashSegs
    cases args.command with
    | none => rfl
    | some c =>
      dsimp only
      by_cases h1 : c = ""
      · rw [if_pos h1, if_pos h1]
      · rw [if_neg h1, if_neg h1]
  unfold execCall
  split_ifs with h1 h2
  · exact ⟨rfl, rfl⟩
  · exact ⟨rfl, (hcs ora).trans (hcs ora').symm⟩
  · exact ⟨rfl, (hbs ora).trans (hbs ora').symm⟩
  · exact ⟨rfl, rfl⟩

/-- Two environments that disagree at most on the adapter oracle of call `i`
(everything else — parse, stringify, clock, settle ignored here — equal). -/
def agreeExcept (i : Nat) (env env' : TurnEnv) : Prop :=
  env.jsParse = env'.jsParse ∧ env.stringify = env'.stringify
    ∧ env.callTime = env'.callTime ∧ ∀ j, j ≠ i → env.oras j = env'.oras j

/-- The chunk loop under two environments agreeing except on call `i`'s
oracle: the wire events, the synchronous responses, the gate, and every
sibling call record coincide. -/
theorem foldl_buildOne_frame (i : Nat) (env env' : TurnEnv)
    (hag : agreeExcept i env env') (parts : List GenPart)
    (st st' : BuildState) (hidx : st'.idx = st.idx) (hgate : st'.gate = st.gate)
    (hev : st'.events = st.events) (hresp : st'.responses = st.responses)
    (hlen : st'.calls.length = st.calls.length)
    (hlen2 : st.calls.length = st.idx)
    (hget : ∀ j, j ≠ i → st.calls.get? j = st'.calls.get? j) :
    (parts.foldl (buildOne env') st').idx = (parts.foldl (buildOne env) st).idx
    ∧ (parts.foldl (buildOne env') st').gate = (parts.foldl (buildOne env) st).gate
    ∧ (parts.foldl (buildOne env') st').events = (parts.foldl (buildOne env) st).events
    ∧ (parts.foldl (buildOne env') st').responses = (parts.foldl (buildOne env) st).responses
    ∧ (parts.foldl (buildOne env') st').calls.length = (parts.foldl (buildOne env) st).calls.length
    ∧ (parts.foldl (buildOne env) st).calls.length = (parts.foldl (buildOne env) st).idx
    ∧ ∀ j, j ≠ i →
        (parts.foldl (buildOne env) st).calls.get? j =
          (parts.foldl (buildOne env') st').calls.get? j := by
  obtain ⟨hparse, hstr, htime, horas⟩ := hag
  induction parts generalizing st st' with
  | nil => exact ⟨hidx, hgate, hev, hresp, hlen, hlen2, hget⟩
  | cons p ps ih =>
    simp only [List.foldl_cons]
    cases p with
    | text s =>
      exact ih _ _ hidx hgate (by simp only [buildOne, hev]) hresp hlen hlen2 hget
    | functionCall name raw =>
      have hargs : parseFcArgs env'.jsParse raw = parseFcArgs env.jsParse raw := by
        rw [hparse]
      have hid' : (⟨st'.idx, env'.callTime st'.idx⟩ : CallId) =
          ⟨st.idx, env.callTime st.idx⟩ := by
        rw [hidx, ← htime]
      have horaEq : st.idx ≠ i → env.oras st.idx = env'.oras st.idx :=
        fun hi => horas st.idx hi
      rcases hE : execCall st.gate name ⟨st.idx, env.callTime st.idx⟩
        (env.oras st.idx) (parseFcArgs env.jsParse raw) with ⟨g1, sy1, rs1⟩
      rcases hE' : execCall st.gate name ⟨st.idx, env.callTime st.idx⟩
        (env'.oras st.idx) (parseFcArgs env.jsParse raw) with ⟨g2, sy2, rs2⟩
      have hO := execCall_oraIndep st.gate name ⟨st.idx, env.callTime st.idx⟩
        (env.oras st.idx) (env'.oras st.idx) (parseFcArgs env.jsParse raw)
      rw [hE, hE'] at hO
      obtain ⟨hOg, hOs⟩ := hO
      dsimp only at hOg hOs
      have hB : buildOne env st (.functionCall name raw) =
          { idx := st.idx + 1, gate := g1,
            events := st.events ++ announceEvents env.stringify
                ⟨st.idx, env.callTime st.idx⟩ st.idx (wireName name)
                (parseFcArgs env.jsParse raw) ++ sy1.events,
            calls := st.calls ++ [⟨⟨st.idx, env.callTime st.idx⟩, name,
              parseFcArgs env.jsParse raw, sy1, rs1⟩],
            responses := st.responses ++ sy1.pushes } := by
        simp only [buildOne]
        rw [hE]
      have hB' : buildOne env' st' (.functionCall name raw) =
          { idx := st.idx + 1, gate := g1,
            events := st.events ++ announceEvents env.stringify
                ⟨st.idx, env.callTime st.idx⟩ st.idx (wireName name)
                (parseFcArgs env.jsParse raw) ++ sy1.events,
            calls := st'.calls ++ [⟨⟨st.idx, env.callTime st.idx⟩, name,
              parseFcArgs env.jsParse raw, sy2, rs2⟩],
            responses := st.responses ++ sy1.pushes } := by
        simp only [buildOne, hargs, hidx, ← htime, hgate, hev, hresp, ← hstr]
        rw [hE']
        rw [← hOg, ← hOs]
      refine ih _ _ ?_ ?_ ?_ ?_ ?_ ?_ ?_
      · rw [hB, hB']
      · rw [hB, hB']
      · rw [hB, hB']
      · rw [hB, hB']
      · rw [hB, hB']
        simp [hlen]
      · rw [hB]
        simp [hlen2]
      · intro j hj
        rw [hB, hB']
        simp only
        rcases lt_trichotomy j st.calls.length with hlt | heq | hgt
        · rw [List.get?_append (by omega), List.get?_append (by omega)]
          exact hget j hj
        · -- `j` is the new call's position: its dispatch index is `st.idx = j ≠ i`,
          -- so the two environments agree on its oracle and the records coincide
          have hidxj : st.idx = j := by omega
          have hsame : execCall st.gate name ⟨st.idx, env.callTime st.idx⟩
              (env'.oras st.idx) (parseFcArgs env.jsParse raw) =
              execCall st.gate name ⟨st.idx, env.callTime st.idx⟩
              (env.oras st.idx) (parseFcArgs env.jsParse raw) := by
            rw [horaEq (by omega)]
          rw [hE, hE'] at hsame
          simp only [Prod.mk.injEq] at hsame
          obtain ⟨h2, h3, h4⟩ := hsame
          rw [h3, h4]
          rw [List.get?_append_right (by omega), List.get?_append_right (by omega),
            hlen]
        · rw [List.get?_append_right (by omega), List.get?_append_right (by omega),
            hlen]
          have h1 : j - st.calls.length = (j - st.calls.length - 1) + 1 := by omega
          rw [h1]
          rfl

/-! ### Screenshot cadence (C1) and transcript append order (C2) -/

/-- Number of `screenshot-update` events in a trace. -/
def countShots (evs : List Event) : Nat :=
  (evs.filter (fun e => match e with
    | .screenshotUpdate _ _ => true
    | _ => false)).length

/-- The trace from the first `tool-call-start` event on (inclusive). -/
def afterFirstStart (evs : List Event) : List Event :=
  evs.dropWhile (fun e => match e with
    | .toolCallStart _ _ => false
    | _ => true)

/-- Environment for the C1 counterexample: one bash call whose command
resolves and whose post-command capture resolves. -/
def envC1 : TurnEnv :=
  ⟨fun _ => none, fun _ => "{}", fun _ => 7,
    fun _ k => if k = 0 then .ok "hi" "" else .ok "img1" "", .ok "img2" ""⟩

/-- The C1 counterexample turn: a single bash call. -/
def partsC1 : List GenPart :=
  [.functionCall "bash_command" (.objArg { command := some "ls" })]

/-- Claim C1 (counterexample): A turn with one bash tool call emits *two*
`screenshot-update` events after its `tool-call-start` — the post-command
capture of the call's own task and the batch-settle capture — so it is false
that no screenshot-update other than the single batch-settle one is emitted
between the tool-call-start events and the settle. -/
theorem c1_counterexample :
    ((build envC1 false partsC1).calls.map CallRec.fcName = ["bash_command"])
    ∧ countShots (afterFirstStart (runTurn envC1 false [0, 0] partsC1).events) = 2 := by
  decide

/-- Claim C1 (amended): After the whole batch completes the round takes exactly
one settle capture and emits exactly one batch-settle `screenshot-update`,
as the final event of the round; however, the tasks of the batch may emit
additional `screenshot-update` events of their own (screenshot actions and
post-action/bash captures) before the settle one. -/
theorem c1_settle_screenshot_last (env : TurnEnv) (gate0 : Bool)
    (sched : List Nat) (parts : List GenPart) (img d : String)
    (hc : (build env gate0 parts).calls ≠ []) (hs : env.settle = .ok img d) :
    (runTurn env gate0 sched parts).events =
      (build env gate0 parts).events
        ++ (runSched sched ((build env gate0 parts).calls.map CallRec.rest)).1
        ++ [.screenshotUpdate img (some (resolutionX, resolutionY))] := by
  have hne : (build env gate0 parts).calls.isEmpty = false := by
    simpa [List.isEmpty_iff] using hc
  rcases hR : runSched sched ((build env gate0 parts).calls.map CallRec.rest)
    with ⟨evs, ps⟩
  simp [runTurn, hne, hs, hR]

/-- Witness for C1 (amended) on the counterexample turn. -/
theorem c1_settle_screenshot_last_witness :
    (runTurn envC1 false [0, 0] partsC1).events =
      (build envC1 false partsC1).events
        ++ (runSched [0, 0] ((build envC1 false partsC1).calls.map CallRec.rest)).1
        ++ [.screenshotUpdate "img2" (some (resolutionX, resolutionY))] :=
  c1_settle_screenshot_last envC1 false [0, 0] partsC1 "img2" "" (by decide) rfl

/-- Environment for the C2 counterexample: two bash calls with
distinguishable outputs. -/
def envC2 : TurnEnv :=
  ⟨fun _ => none, fun _ => "{}", fun _ => 3,
    fun i k => if k = 0 then (if i = 0 then .ok "outA" "" else .ok "outB" "")
      else .ok "img" "", .ok "set" ""⟩

/-- The C2 counterexample turn: two bash calls in request order `a`, `b`. -/
def partsC2 : List GenPart :=
  [.functionCall "bash_command" (.objArg { command := some "a" }),
   .functionCall "bash_command" (.objArg { command := some "b" })]

/-- Claim C2 (counterexample): With two concurrently executing bash calls, a
schedule under which the second call finishes first records the
`functionResponses` — and hence the appended tool-result turn — in completion
order `[outB, outA]`, not in the request order `[outA, outB]`: the
tool-results are *not* ordered identically to the tool-requests they
answer. -/
theorem c2_counterexample :
    ((runTurn envC2 false [1, 1, 0, 0] partsC2).calls.map (fun c => c.args.command)
        = [some "a", some "b"])
    ∧ (runTurn envC2 false [1, 1, 0, 0] partsC2).responses =
        [⟨"bash_command", .result "outB"⟩, ⟨"bash_command", .result "outA"⟩]
    ∧ (runTurn envC2 false [1, 1, 0, 0] partsC2).appended.get? 1 =
        some ⟨.user, [.functionResponse "bash_command" (.result "outB"),
                      .functionResponse "bash_command" (.result "outA")]⟩
    ∧ (runTurn envC2 false [1, 1, 0, 0] partsC2).responses ≠
        [⟨"bash_command", .result "outA"⟩, ⟨"bash_command", .result "outB"⟩] := by
  decide

/-- Claim C2 (amended): At every batch-settle step the three turns are appended
in the fixed order tool-requests (`model` role, in request order), then
tool-results (`user` role), then continuation-prompt-plus-screenshot (`user`
role), for every schedule; but the tool-results turn lists the recorded
responses in the order the executions completed (synchronous pushes in
dispatch order, then suspended pushes in schedule order), which need not be
the request order. -/
theorem c2_fixed_turn_order (env : TurnEnv) (gate0 : Bool) (sched : List Nat)
    (parts : List GenPart) (img d : String)
    (hc : (build env gate0 parts).calls ≠ []) (hs : env.settle = .ok img d) :
    (runTurn env gate0 sched parts).appended =
      [⟨.model, (build env gate0 parts).calls.map
          (fun c => .functionCall c.fcName c.args)⟩,
       ⟨.user, ((build env gate0 parts).responses
            ++ (runSched sched ((build env gate0 parts).calls.map CallRec.rest)).2).map
          (fun r => .functionResponse r.name r.resp)⟩,
       ⟨.user, [.text s!"All {(build env gate0 parts).calls.length} action(s) completed. Continue with the next steps. Here is the current screen:",
                .inlineData "image/png" img]⟩] := by
  have hne : (build env gate0 parts).calls.isEmpty = false := by
    simpa [List.isEmpty_iff] using hc
  rcases hR : runSched sched ((build env gate0 parts).calls.map CallRec.rest)
    with ⟨evs, ps⟩
  simp [runTurn, hne, hs, hR]

/-- Witness for C2 (amended) on the counterexample turn. -/
theorem c2_fixed_turn_order_witness :
    (runTurn envC2 false [1, 1, 0, 0] partsC2).appended =
      [⟨.model, (build envC2 false partsC2).calls.map
          (fun c => .functionCall c.fcName c.args)⟩,
       ⟨.user, ((build envC2 false partsC2).responses
            ++ (runSched [1, 1, 0, 0] ((build envC2 false partsC2).calls.map CallRec.rest)).2).map
          (fun r => .functionResponse r.name r.resp)⟩,
       ⟨.user, [.text s!"All {(build envC2 false partsC2).calls.length} action(s) completed. Continue with the next steps. Here is the current screen:",
                .inlineData "image/png" "set"]⟩] :=
  c2_fixed_turn_order envC2 false [1, 1, 0, 0] partsC2 "set" "" (by decide) rfl

/-! ### Per-call event lifecycle (C6) -/

/-- The events of a trace bearing a given `toolCallId`. -/
def filterId (id : CallId) (evs : List Event) : List Event :=
  evs.filter (fun e => e.callId? = some id)

/-- The announcement block of a recorded call. -/
def announceBlock (env : TurnEnv) (c : CallRec) : List Event :=
  announceEvents env.stringify c.id c.id.index (wireName c.fcName) c.args

/-- All events of a dispatched task (synchronous prefix followed by the
suspended segments, in task order). -/
def taskEvents (sy : Seg) (rest : List Seg) : List Event :=
  sy.events ++ (rest.map Seg.events).flatten

/-- Every event of the list either carries no `toolCallId` or carries `id`. -/
def ownOnly (id : CallId) (evs : List Event) : Prop :=
  ∀ e ∈ evs, Event.callId? e = none ∨ Event.callId? e = some id

/-- The well-formedness of one task's event list with respect to its own id:
foreign ids never occur, and the id-bearing events are at most one
`tool-output-available`. -/
def goodTask (id : CallId) (evs : List Event) : Prop :=
  ownOnly id evs
    ∧ (filterId id evs = []
        ∨ ∃ out, filterId id evs = [.toolOutputAvailable id out])

theorem goodTask_nil (id : CallId) : goodTask id [] :=
  ⟨fun e he => absurd he (List.not_mem_nil e), .inl rfl⟩

theorem postCaptureSegs_events (id : CallId) (nm : String) (res : PrimOutcome) :
    ownOnly id ((postCaptureSegs nm res).map Seg.events).flatten
      ∧ filterId id ((postCaptureSegs nm res).map Seg.events).flatten = [] := by
  cases res <;> simp [postCaptureSegs, ownOnly, filterId, Event.callId?]

theorem goodTask_output_post (id : CallId) (out : ToolOutput) (nm : String)
    (res : PrimOutcome) :
    goodTask id (.toolOutputAvailable id out
      :: ((postCaptureSegs nm res).map Seg.events).flatten) := by
  obtain ⟨h1, h2⟩ := postCaptureSegs_events id nm res
  constructor
  · intro e he
    rcases List.mem_cons.mp he with rfl | he'
    · exact .inr rfl
    · exact h1 e he'
  · refine .inr ⟨out, ?_⟩
    simp only [filterId, List.filter_cons]
    rw [if_pos (by simp [Event.callId?])]
    simp only [filterId] at h2
    rw [h2]

theorem goodTask_single_error (id : CallId) (m : String) :
    goodTask id [.errorEv m] := by
  constructor
  · intro e he
    rcases List.mem_singleton.mp he with rfl
    exact .inl rfl
  · exact .inl (by simp [filterId, Event.callId?])

/-- The events of a `computer_use` task that passed the gate are well-formed
with respect to its id. -/
theorem computerSegs_goodTask (id : CallId) (ora : Nat → PrimOutcome)
    (args : Args) :
    goodTask id (taskEvents (computerSegs id ora args).1 (computerSegs id ora args).2) := by
  rcases hE : computerSegs id ora args with ⟨sy, rest⟩
  unfold computerSegs at hE
  rcases hact : args.action with - | a
  · rw [hact] at hE
    dsimp only at hE
    obtain ⟨rfl, rfl⟩ := Prod.mk.injEq .. ▸ hE.symm
    simpa [taskEvents] using
      goodTask_output_post id (.text "Unknown action: undefined" none) "computer_use" (ora 0)
  · rw [hact] at hE
    dsimp only at hE
    by_cases h1 : a = "screenshot"
    · rw [if_pos h1] at hE
      rcases hO : ora 0 with ⟨img, d2⟩ | m <;> rw [hO] at hE <;>
        obtain ⟨rfl, rfl⟩ := Prod.mk.injEq .. ▸ hE.symm
      · refine ⟨?_, .inr ⟨.image img resolutionX resolutionY, ?_⟩⟩
        · intro e he
          simp only [taskEvents, emptySeg] at he
          simp only [List.nil_append, List.map_cons, List.map_nil,
            List.flatten_cons, List.flatten_nil, List.append_nil,
            List.mem_cons, List.not_mem_nil, or_false] at he
          rcases he with rfl | rfl
          · exact .inl rfl
          · exact .inr rfl
        · simp [taskEvents, emptySeg, filterId, Event.callId?]
      · simpa [taskEvents, emptySeg] using goodTask_single_error id m
    · rw [if_neg h1] at hE
      by_cases h2 : a = "wait"
      · rw [if_pos h2] at hE
        obtain ⟨rfl, rfl⟩ := Prod.mk.injEq .. ▸ hE.symm
        simpa [taskEvents, emptySeg] using
          goodTask_output_post id
            (.text s!"Waited for {Nat.min (match args.duration with | none => 1 | some 0 => 1 | some n => n) 2} seconds" none)
            "computer_use" (ora 1)
      · rw [if_neg h2] at hE
        rcases hm : motionSpec args a with - | ⟨ps, txt⟩ <;> rw [hm] at hE <;>
          dsimp only at hE
        · obtain ⟨rfl, rfl⟩ := Prod.mk.injEq .. ▸ hE.symm
          simpa [taskEvents] using
            goodTask_output_post id (.text s!"Unknown action: {a}" none)
              "computer_use" (ora 0)
        · rcases hr : runPrims ora 0 ps with ⟨invoked, e?, k⟩
          rw [hr] at hE
          rcases e? with - | m <;> dsimp only at hE <;>
            obtain ⟨rfl, rfl⟩ := Prod.mk.injEq .. ▸ hE.symm
          · simpa [taskEvents, emptySeg] using
              goodTask_output_post id (.text txt none) "computer_use" (ora k)
          · simpa [taskEvents, emptySeg] using goodTask_single_error id m

/-- The events of a `bash_command` task are well-formed with respect to its
id. -/
theorem bashSegs_goodTask (id : CallId) (ora : Nat → PrimOutcome) (args : Args) :
    goodTask id (taskEvents (bashSegs id ora args).1 (bashSegs id ora args).2) := by
  rcases hE : bashSegs id ora args with ⟨sy, rest⟩
  unfold bashSegs at hE
  rcases hc : args.command with - | c
  · rw [hc] at hE
    obtain ⟨rfl, rfl⟩ := Prod.mk.injEq .. ▸ hE.symm
    simpa [taskEvents] using goodTask_single_error id missingCommandText
  · rw [hc] at hE
    dsimp only at hE
    by_cases h1 : c = ""
    · rw [if_pos h1] at hE
      obtain ⟨rfl, rfl⟩ := Prod.mk.injEq .. ▸ hE.symm
      simpa [taskEvents] using goodTask_single_error id missingCommandText
    · rw [if_neg h1] at hE
      rcases hO : ora 0 with ⟨out, errOut⟩ | m <;> rw [hO] at hE <;>
        dsimp only at hE <;>
        obtain ⟨rfl, rfl⟩ := Prod.mk.injEq .. ▸ hE.symm
      · simpa [taskEvents, emptySeg] using
          goodTask_output_post id
            (.text (if out ≠ "" then out
              else if errOut ≠ "" then errOut
              else "(Command executed successfully with no output)") none)
            "bash_command" (ora 1)
      · simpa [taskEvents, emptySeg] using goodTask_single_error id m

/-- The events of any dispatched task are well-formed with respect to its
id. -/
theorem execCall_goodTask (g : Bool) (name : String) (id : CallId)
    (ora : Nat → PrimOutcome) (args : Args) :
    goodTask id (taskEvents (execCall g name id ora args).2.1
      (execCall g name id ora args).2.2) := by
  unfold execCall
  by_cases hn : name = "computer_use"
  · rw [if_pos hn]
    by_cases hb : (!g && decide (args.action ≠ some "screenshot")) = true
    · rw [if_pos hb]
      refine ⟨?_, .inr ⟨.text requirementText (some "blocked"), ?_⟩⟩
      · intro e he
        simp only [taskEvents] at he
        simp only [List.map_nil, List.flatten_nil, List.append_nil,
          List.mem_singleton] at he
        subst he
        exact .inr rfl
      · simp [taskEvents, filterId, Event.callId?]
    · rw [if_neg hb]
      exact computerSegs_goodTask id ora args
  · rw [if_neg hn]
    by_cases hb : name = "bash_command"
    · rw [if_pos hb]
      exact bashSegs_goodTask id ora args
    · rw [if_neg hb]
      simpa [taskEvents, emptySeg] using goodTask_nil id

/-! ### Per-call failure recording (C4) -/

/-- All `functionResponses` pushes of a dispatched task (synchronous prefix
followed by the suspended segments, in task order). -/
def taskPushes (sy : Seg) (rest : List Seg) : List RespRecord :=
  sy.pushes ++ (rest.map Seg.pushes).flatten

/-- The call's execution throws *before its output is recorded*: an awaited
adapter primitive of the action itself rejects — the screenshot capture, or
any primitive of a pointer/keyboard/scroll/drag sequence (`runPrims` stops at
the rejection), or the bash `commands.run` — or the synchronous
missing-command check throws.  A rejection of the *post-action* screen
capture is deliberately **not** covered: it fires after the call's success
output event and `{result}` push (see the C4 counterexample), so it does not
make the call's recorded outcome an error. -/
def throwsBeforeOutput (name : String) (args : Args) (ora : Nat → PrimOutcome)
    (m : String) : Prop :=
  (name = "computer_use" ∧
      ((args.action = some "screenshot" ∧ ora 0 = .err m)
        ∨ ∃ a ps txt, args.action = some a ∧ motionSpec args a = some (ps, txt)
            ∧ (runPrims ora 0 ps).2.1 = some m))
    ∨ (name = "bash_command" ∧
      ((∃ c, args.command = some c ∧ c ≠ "" ∧ ora 0 = .err m)
        ∨ ((args.command = none ∨ args.command = some "")
            ∧ m = missingCommandText)))

/-- Claim C4 (counterexample): a tool call whose execution throws need *not*
end with a `Failed` status and `Error` outcome.  Concretely, a gate-open
`mouse_move` whose pointer move succeeds but whose *post-action* screen
capture rejects: the code has already emitted the success
`tool-output-available` and pushed the `{result}` function response before
the `catch` fires, so the call's only id-bearing terminal event is the
success output (client status Succeeded, not Failed), and the transcript
records a `{result}` entry first, followed by a spurious second `{error}`
entry for the same call — falsifying the claim that the call's status
becomes `Failed` with `ToolOutcome Error(message)` as its recorded terminal
outcome. -/
theorem c4_counterexample :
    execCall true "computer_use" ⟨0, 0⟩
        (fun k => if k = 0 then .ok "" "" else .err "capfail")
        { action := some "mouse_move", coordinate := some (3, 4) } =
      (true, emptySeg,
        [{ prims := [.moveMouse 3 4],
           events := [.toolOutputAvailable ⟨0, 0⟩ (.text "Moved mouse to 3, 4" none)],
           pushes := [⟨"computer_use", .result "Moved mouse to 3, 4"⟩] },
         { prims := [.capture], events := [.errorEv "capfail"],
           pushes := [⟨"computer_use", .error "capfail"⟩] }])
    ∧ filterId ⟨0, 0⟩ (taskEvents
        (execCall true "computer_use" ⟨0, 0⟩
          (fun k => if k = 0 then .ok "" "" else .err "capfail")
          { action := some "mouse_move", coordinate := some (3, 4) }).2.1
        (execCall true "computer_use" ⟨0, 0⟩
          (fun k => if k = 0 then .ok "" "" else .err "capfail")
          { action := some "mouse_move", coordinate := some (3, 4) }).2.2) =
      [.toolOutputAvailable ⟨0, 0⟩ (.text "Moved mouse to 3, 4" none)]
    ∧ taskPushes
        (execCall true "computer_use" ⟨0, 0⟩
          (fun k => if k = 0 then .ok "" "" else .err "capfail")
          { action := some "mouse_move", coordinate := some (3, 4) }).2.1
        (execCall true "computer_use" ⟨0, 0⟩
          (fun k => if k = 0 then .ok "" "" else .err "capfail")
          { action := some "mouse_move", coordinate := some (3, 4) }).2.2 =
      [⟨"computer_use", .result "Moved mouse to 3, 4"⟩,
       ⟨"computer_use", .error "capfail"⟩] := by
  refine ⟨?_, ?_, ?_⟩ <;> decide

/-- Claim C4 (amended): a tool call whose execution throws *before its output
is recorded* (any awaited primitive of the action itself rejects, or the
synchronous missing-command check throws) is recorded as an isolated
per-call failure: (i) the whole task emits exactly one `error` event with
the thrown message and records exactly one `{error: message}` function
response — the terminal `Error` outcome folded into the tool-result turn —
and emits no `tool-output-available`; (ii) sibling calls are unaffected —
under two environments that differ only in call `i`'s adapter oracle, the
chunk loop produces the same events, gate, synchronous responses, and
identical sibling call records; (iii) the session continues: any round with
at least one call and a successful settle capture appends its three turns
and keeps the stream open.  (If instead the *post-action* capture rejects,
the error event and a second `{error}` entry still follow, but the call's
recorded outcome remains the earlier success output — see the
counterexample.) -/
theorem c4_throw_before_output_failed (name : String) (args : Args)
    (id : CallId) (ora : Nat → PrimOutcome) (m : String)
    (h : throwsBeforeOutput name args ora m) :
    (taskEvents (execCall true name id ora args).2.1
        (execCall true name id ora args).2.2 = [.errorEv m]
      ∧ taskPushes (execCall true name id ora args).2.1
          (execCall true name id ora args).2.2 = [⟨name, .error m⟩])
    ∧ (∀ i env env', agreeExcept i env env' → ∀ gate0 parts,
        (build env' gate0 parts).gate = (build env gate0 parts).gate
        ∧ (build env' gate0 parts).events = (build env gate0 parts).events
        ∧ (build env' gate0 parts).responses = (build env gate0 parts).responses
        ∧ ∀ j, j ≠ i →
            (build env gate0 parts).calls.get? j = (build env' gate0 parts).calls.get? j)
    ∧ (∀ env gate0 sched parts img d (nm : String) (raw : FcArgs),
        GenPart.functionCall nm raw ∈ parts →
        TurnEnv.settle env = .ok img d →
        (runTurn env gate0 sched parts).closed = false
          ∧ (runTurn env gate0 sched parts).appended.length = 3) := by
  refine ⟨?_, ?_, ?_⟩
  · rcases h with ⟨hn, ⟨hsc, hOra⟩ | ⟨a, ps, txt, hact, hspec, hrp⟩⟩ |
      ⟨hn, ⟨c, hcmd, hcne, hOra⟩ | ⟨hmiss, hm⟩⟩
    · subst hn
      have hcs : computerSegs id ora args =
          (emptySeg,
            [{ prims := [.capture], events := [.errorEv m],
               pushes := [⟨"computer_use", .error m⟩] }]) := by
        unfold computerSegs
        rw [hsc]
        dsimp only
        rw [if_pos rfl, hOra]
      rw [execCall_cu_gateTrue, hcs]
      exact ⟨rfl, rfl⟩
    · subst hn
      obtain ⟨hans, hanw⟩ := motionSpec_action_ne args a (ps, txt) hspec
      rcases hr : runPrims ora 0 ps with ⟨invoked, e?, k⟩
      rw [hr] at hrp
      dsimp only at hrp
      subst hrp
      have hcs : computerSegs id ora args =
          (emptySeg,
            [{ prims := invoked, events := [.errorEv m],
               pushes := [⟨"computer_use", .error m⟩] }]) := by
        unfold computerSegs
        rw [hact]
        dsimp only
        rw [if_neg hans, if_neg hanw, hspec]
        dsimp only
        rw [hr]
      rw [execCall_cu_gateTrue, hcs]
      exact ⟨rfl, rfl⟩
    · subst hn
      have hbs : bashSegs id ora args =
          (emptySeg,
            [{ prims := [.runCommand c], events := [.errorEv m],
               pushes := [⟨"bash_command", .error m⟩] }]) := by
        unfold bashSegs
        rw [hcmd]
        dsimp only
        rw [if_neg hcne, hOra]
      rw [execCall_bash, hbs]
      exact ⟨rfl, rfl⟩
    · subst hn
      subst hm
      rcases hmiss with hnone | hempty
      · have hbs : bashSegs id ora args =
            ({ events := [.errorEv missingCommandText],
               pushes := [⟨"bash_command", .error missingCommandText⟩] }, []) := by
          unfold bashSegs
          rw [hnone]
        rw [execCall_bash, hbs]
        exact ⟨rfl, rfl⟩
      · have hbs : bashSegs id ora args =
            ({ events := [.errorEv missingCommandText],
               pushes := [⟨"bash_command", .error missingCommandText⟩] }, []) := by
          unfold bashSegs
          rw [hempty]
          dsimp only
          rw [if_pos rfl]
        rw [execCall_bash, hbs]
        exact ⟨rfl, rfl⟩
  · intro i env env' hag gate0 parts
    obtain ⟨-, h2, h3, h4, -, -, h7⟩ := foldl_buildOne_frame i env env' hag parts
      { gate := gate0 } { gate := gate0 } rfl rfl rfl rfl rfl rfl
      (fun _ _ => rfl)
    exact ⟨h2, h3, h4, h7⟩
  · intro env gate0 sched parts img d nm raw hmem hsettle
    obtain ⟨hclosed, -, happ⟩ := runTurn_continues env gate0 sched parts img d
      (build_calls_ne_nil_of_mem_fc env gate0 parts nm raw hmem) hsettle
    exact ⟨hclosed, happ⟩

/-- Witness for C4 (amended): a bash command whose `commands.run` rejects
with `"boom"`. -/
theorem c4_throw_before_output_failed_witness :
    throwsBeforeOutput "bash_command" { command := some "ls" }
        (fun _ => .err "boom") "boom"
    ∧ taskEvents (execCall true "bash_command" ⟨0, 0⟩ (fun _ => .err "boom")
          { command := some "ls" }).2.1
        (execCall true "bash_command" ⟨0, 0⟩ (fun _ => .err "boom")
          { command := some "ls" }).2.2 = [.errorEv "boom"]
    ∧ taskPushes (execCall true "bash_command" ⟨0, 0⟩ (fun _ => .err "boom")
          { command := some "ls" }).2.1
        (execCall true "bash_command" ⟨0, 0⟩ (fun _ => .err "boom")
          { command := some "ls" }).2.2 = [⟨"bash_command", .error "boom"⟩] := by
  have hth : throwsBeforeOutput "bash_command" { command := some "ls" }
      (fun _ => .err "boom") "boom" :=
    .inr ⟨rfl, .inl ⟨"ls", rfl, by decide, rfl⟩⟩
  refine ⟨hth, ?_, ?_⟩
  · exact ((c4_throw_before_output_failed "bash_command" { command := some "ls" }
      ⟨0, 0⟩ (fun _ => .err "boom") "boom" hth).1).1
  · exact ((c4_throw_before_output_failed "bash_command" { command := some "ls" }
      ⟨0, 0⟩ (fun _ => .err "boom") "boom" hth).1).2

theorem filterId_append (id : CallId) (a b : List Event) :
    filterId id (a ++ b) = filterId id a ++ filterId id b :=
  List.filter_append ..

theorem filterId_flat_nil (id : CallId) (t : List Seg)
    (h : ∀ seg ∈ t, ∀ e ∈ seg.events, Event.callId? e ≠ some id) :
    filterId id ((t.map Seg.events).flatten) = [] := by
  rw [filterId, List.filter_eq_nil_iff]
  intro e he
  simp only [List.mem_flatten, List.mem_map] at he
  obtain ⟨l, ⟨seg, hseg, rfl⟩, hel⟩ := he
  simpa using h seg hseg e hel

theorem flushTasks_filter_nil (id : CallId) (tasks : List (List Seg))
    (h : ∀ t ∈ tasks, ∀ seg ∈ t, ∀ e ∈ seg.events, Event.callId? e ≠ some id) :
    filterId id (flushTasks tasks).1 = [] := by
  induction tasks with
  | nil => rfl
  | cons t ts ih =>
    rcases hF : flushTasks ts with ⟨evs, ps⟩
    simp only [flushTasks, hF]
    rw [filterId_append, filterId_flat_nil id t (h t (List.mem_cons_self ..))]
    have := ih (fun t' ht' => h t' (List.mem_cons_of_mem _ ht'))
    rw [hF] at this
    simpa using this

/-- Flushing the remaining segments: the trace filtered to one task's id is
that task's own remaining events, provided every other task is free of that
id. -/
theorem flushTasks_filter (id : CallId) (tasks : List (List Seg)) (i : Nat)
    (hother : ∀ j, j ≠ i → ∀ segs, tasks.get? j = some segs →
        ∀ seg ∈ segs, ∀ e ∈ seg.events, Event.callId? e ≠ some id) :
    filterId id (flushTasks tasks).1 =
      filterId id ((((tasks.get? i).getD []).map Seg.events).flatten) := by
  induction tasks generalizing i with
  | nil => simp [flushTasks, filterId]
  | cons t ts ih =>
    rcases hF : flushTasks ts with ⟨evs, ps⟩
    simp only [flushTasks, hF]
    cases i with
    | zero =>
      have hrest : filterId id evs = [] := by
        have := flushTasks_filter_nil id ts (fun t' ht' => by
          obtain ⟨⟨j, hjlt⟩, hj⟩ := List.mem_iff_get.mp ht'
          exact hother (j + 1) (by omega) t'
            ((List.get?_eq_get hjlt).trans (congrArg some hj)))
        rw [hF] at this
        simpa using this
      rw [filterId_append, hrest]
      simp
    | succ n =>
      have h0 : filterId id ((t.map Seg.events).flatten) = [] :=
        filterId_flat_nil id t (fun seg hseg => hother 0 (by omega) t rfl seg hseg)
      have hIH := ih n (fun j hj segs hget =>
        hother (j + 1) (by omega) segs (by simpa using hget))
      rw [hF] at hIH
      rw [filterId_append, h0, List.nil_append]
      simpa using hIH

/-- Scheduled execution: the trace of the interleaved batch filtered to one
task's id is exactly that task's own event sequence, in task order, for every
schedule — provided every other task is free of that id. -/
theorem runSched_filter (id : CallId) (sched : List Nat)
    (tasks : List (List Seg)) (i : Nat)
    (hother : ∀ j, j ≠ i → ∀ segs, tasks.get? j = some segs →
        ∀ seg ∈ segs, ∀ e ∈ seg.events, Event.callId? e ≠ some id) :
    filterId id (runSched sched tasks).1 =
      filterId id ((((tasks.get? i).getD []).map Seg.events).flatten) := by
  induction sched generalizing tasks with
  | nil => exact flushTasks_filter id tasks i hother
  | cons s sched ih =>
    cases hs : tasks.get? s with
    | none =>
      simp only [runSched, hs]
      exact ih tasks hother
    | some segs =>
      cases segs with
      | nil =>
        simp only [runSched, hs]
        exact ih tasks hother
      | cons seg more =>
        have hslt : s < tasks.length := by
          by_contra hge
          rw [List.get?_eq_none.mpr (by omega)] at hs
          exact Option.noConfusion hs
        rcases hR : runSched sched (tasks.set s more) with ⟨evs, ps⟩
        simp only [runSched, hs, hR]
        by_cases hsi : s = i
        · subst hsi
          have hIH := ih (tasks.set s more) (fun j hj segs' hget => by
            rw [List.get?_set_ne _ _ (fun hEq => hj hEq.symm)] at hget
            exact hother j hj segs' hget)
          rw [hR] at hIH
          have hset : (tasks.set s more).get? s = some more := by
            rw [List.get?_set_eq_of_lt _ hslt]
          rw [hset] at hIH
          rw [hs]
          simp only [Option.getD_some, List.map_cons, List.flatten_cons] at hIH ⊢
          rw [filterId_append, hIH, ← filterId_append]
        · have h0 : filterId id seg.events = [] := by
            rw [filterId, List.filter_eq_nil_iff]
            intro e he
            simpa using hother s hsi _ hs seg (List.mem_cons_self ..) e he
          have hIH := ih (tasks.set s more) (fun j hj segs' hget => by
            by_cases hjs : j = s
            · subst hjs
              rw [List.get?_set_eq_of_lt _ hslt] at hget
              obtain rfl := Option.some.inj hget
              exact fun seg' hseg' => hother j hsi _ hs seg'
                (List.mem_cons_of_mem _ hseg')
            · rw [List.get?_set_ne _ _ (fun hEq => hjs hEq.symm)] at hget
              exact hother j hj segs' hget)
          rw [hR] at hIH
          rw [List.get?_set_ne _ _ hsi] at hIH
          simp only at hIH
          rw [filterId_append, h0, List.nil_append, hIH]

theorem announce_callId (strf : Args → String) (id : CallId) (idx : Nat)
    (n : String) (a : Args) :
    ∀ e ∈ announceEvents strf id idx n a, Event.callId? e = some id := by
  intro e he
  simp only [announceEvents, List.cons_append, List.mem_cons] at he
  rcases he with rfl | rfl | he'
  · rfl
  · rfl
  · rcases List.mem_append.mp he' with hm | hz
    · obtain ⟨d, -, rfl⟩ := List.mem_map.mp hm
      rfl
    · rcases List.mem_singleton.mp hz with rfl
      rfl

/-- Invariants of the chunk loop used by C6: (P) the events so far filtered
to a recorded call's id are its announcement block followed by its
synchronous id-events; (Q) every id occurring in the events so far has index
below the call counter; (R) recorded calls have index below the counter;
(D) distinct positions hold distinct ids; (T) every recorded task is
well-formed for its own id. -/
theorem build_invariants (env : TurnEnv) (parts : List GenPart)
    (st : BuildState)
    (hP : ∀ c ∈ st.calls, filterId c.id st.events =
        announceBlock env c ++ filterId c.id c.sync.events)
    (hQ : ∀ e ∈ st.events, ∀ i, Event.callId? e = some i → i.index < st.idx)
    (hR : ∀ c ∈ st.calls, c.id.index < st.idx)
    (hD : ∀ j k c' c'', st.calls.get? j = some c' → st.calls.get? k = some c'' →
        c'.id = c''.id → j = k)
    (hT : ∀ c ∈ st.calls, goodTask c.id (taskEvents c.sync c.rest)) :
    (∀ c ∈ (parts.foldl (buildOne env) st).calls,
        filterId c.id (parts.foldl (buildOne env) st).events =
          announceBlock env c ++ filterId c.id c.sync.events)
    ∧ (∀ c ∈ (parts.foldl (buildOne env) st).calls,
        c.id.index < (parts.foldl (buildOne env) st).idx)
    ∧ (∀ j k c' c'', (parts.foldl (buildOne env) st).calls.get? j = some c' →
        (parts.foldl (buildOne env) st).calls.get? k = some c'' →
        c'.id = c''.id → j = k)
    ∧ (∀ c ∈ (parts.foldl (buildOne env) st).calls,
        goodTask c.id (taskEvents c.sync c.rest)) := by
  induction parts generalizing st with
  | nil => exact ⟨hP, hR, hD, hT⟩
  | cons p ps ih =>
    simp only [List.foldl_cons]
    cases p with
    | text s =>
      refine ih _ ?_ ?_ hR hD hT
      · intro c hc
        show filterId c.id (st.events ++ [.textDelta s "default"]) = _
        rw [filterId_append]
        have h2 : filterId c.id [.textDelta s "default"] = [] := by
          simp [filterId, Event.callId?]
        rw [h2, List.append_nil]
        exact hP c hc
      · intro e he i hi
        show i.index < st.idx
        rcases List.mem_append.mp he with h | h
        · exact hQ e h i hi
        · rcases List.mem_singleton.mp h with rfl
          exact absurd hi (by simp [Event.callId?])
    | functionCall name raw =>
      rcases hE : execCall st.gate name ⟨st.idx, env.callTime st.idx⟩
        (env.oras st.idx) (parseFcArgs env.jsParse raw) with ⟨g1, sy1, rs1⟩
      have hB : buildOne env st (.functionCall name raw) =
          { idx := st.idx + 1, gate := g1,
            events := st.events ++ announceEvents env.stringify
                ⟨st.idx, env.callTime st.idx⟩ st.idx (wireName name)
                (parseFcArgs env.jsParse raw) ++ sy1.events,
            calls := st.calls ++ [⟨⟨st.idx, env.callTime st.idx⟩, name,
              parseFcArgs env.jsParse raw, sy1, rs1⟩],
            responses := st.responses ++ sy1.pushes } := by
        simp only [buildOne]
        rw [hE]
      set newc : CallRec := ⟨⟨st.idx, env.callTime st.idx⟩, name,
        parseFcArgs env.jsParse raw, sy1, rs1⟩ with hnewc
      have hgood : goodTask newc.id (taskEvents newc.sync newc.rest) := by
        have := execCall_goodTask st.gate name ⟨st.idx, env.callTime st.idx⟩
          (env.oras st.idx) (parseFcArgs env.jsParse raw)
        rw [hE] at this
        exact this
      have hsyncOwn : ∀ e ∈ sy1.events, Event.callId? e = none
          ∨ Event.callId? e = some newc.id := by
        intro e he
        exact hgood.1 e (List.mem_append_left _ he)
      rw [hB]
      refine ih _ ?_ ?_ ?_ ?_ ?_
      · -- (P)
        intro c hc
        rcases List.mem_append.mp hc with hold | hnew
        · have hne : c.id ≠ newc.id := by
            intro hEq
            have := hR c hold
            rw [hEq] at this
            simp [hnewc] at this
          show filterId c.id (st.events ++ _ ++ sy1.events) = _
          rw [filterId_append, filterId_append]
          have hann : filterId c.id (announceEvents env.stringify
              ⟨st.idx, env.callTime st.idx⟩ st.idx (wireName name)
              (parseFcArgs env.jsParse raw)) = [] := by
            rw [filterId, List.filter_eq_nil_iff]
            intro e he
            rw [announce_callId _ _ _ _ _ e he]
            simp only [decide_eq_true_eq, Option.some.injEq]
            intro hEq
            exact hne hEq.symm
          have hsync : filterId c.id sy1.events = [] := by
            rw [filterId, List.filter_eq_nil_iff]
            intro e he
            rcases hsyncOwn e he with h | h <;> simp only [h] <;>
              simp only [decide_eq_true_eq, Option.some.injEq, reduceCtorEq,
                not_false_eq_true]
            intro hEq
            exact hne hEq.symm
          rw [hann, hsync, List.append_nil, List.append_nil]
          exact hP c hold
        · rcases List.mem_singleton.mp hnew with rfl
          show filterId newc.id (st.events ++ _ ++ sy1.events) = _
          rw [filterId_append, filterId_append]
          have hold0 : filterId newc.id st.events = [] := by
            rw [filterId, List.filter_eq_nil_iff]
            intro e he
            simp only [decide_eq_true_eq]
            intro hEq
            have := hQ e he newc.id hEq
            simp [hnewc] at this
          have hann : filterId newc.id (announceEvents env.stringify
              ⟨st.idx, env.callTime st.idx⟩ st.idx (wireName name)
              (parseFcArgs env.jsParse raw)) =
              announceEvents env.stringify ⟨st.idx, env.callTime st.idx⟩ st.idx
                (wireName name) (parseFcArgs env.jsParse raw) := by
            rw [filterId, List.filter_eq_self]
            intro e he
            rw [announce_callId _ _ _ _ _ e he]
            simp [hnewc]
          rw [hold0, hann, List.nil_append]
          rfl
      · -- (Q)
        intro e he i hi
        show i.index < st.idx + 1
        rcases List.mem_append.mp he with he' | hsy
        · rcases List.mem_append.mp he' with h | h
          · exact Nat.lt_succ_of_lt (hQ e h i hi)
          · rw [announce_callId _ _ _ _ _ e h] at hi
            obtain rfl := Option.some.inj hi
            simp
        · rcases hsyncOwn e hsy with h | h
          · rw [h] at hi
            exact Option.noConfusion hi
          · rw [h] at hi
            obtain rfl := Option.some.inj hi
            simp [hnewc]
      · -- (R)
        intro c hc
        show c.id.index < st.idx + 1
        rcases List.mem_append.mp hc with hold | hnew
        · exact Nat.lt_succ_of_lt (hR c hold)
        · rcases List.mem_singleton.mp hnew with rfl
          simp [hnewc]
      · -- (D)
        intro j k c' c'' hj hk hEq
        rcases lt_trichotomy j st.calls.length with hjl | hjl | hjl
        · rcases lt_trichotomy k st.calls.length with hkl | hkl | hkl
          · rw [List.get?_append hjl] at hj
            rw [List.get?_append hkl] at hk
            exact hD j k c' c'' hj hk hEq
          · rw [List.get?_append hjl] at hj
            rw [List.get?_append_right (by omega)] at hk
            rw [hkl] at hk
            simp only [Nat.sub_self] at hk
            obtain rfl := Option.some.inj hk
            have := hR c' (List.get?_mem hj)
            rw [hEq] at this
            simp [hnewc] at this
          · rw [List.get?_append_right (by omega)] at hk
            have h2 : k - st.calls.length = (k - st.calls.length - 1) + 1 := by omega
            rw [h2] at hk
            exact Option.noConfusion hk
        · rcases lt_trichotomy k st.calls.length with hkl | hkl | hkl
          · rw [List.get?_append_right (by omega)] at hj
            rw [hjl] at hj
            simp only [Nat.sub_self] at hj
            obtain rfl := Option.some.inj hj
            rw [List.get?_append hkl] at hk
            have := hR c'' (List.get?_mem hk)
            rw [← hEq] at this
            simp [hnewc] at this
          · omega
          · rw [List.get?_append_right (by omega)] at hk
            have h2 : k - st.calls.length = (k - st.calls.length - 1) + 1 := by omega
            rw [h2] at hk
            exact Option.noConfusion hk
        · rw [List.get?_append_right (by omega)] at hj
          have h2 : j - st.calls.length = (j - st.calls.length - 1) + 1 := by omega
          rw [h2] at hj
          exact Option.noConfusion hj
      · -- (T)
        intro c hc
        rcases List.mem_append.mp hc with hold | hnew
        · exact hT c hold
        · rcases List.mem_singleton.mp hnew with rfl
          exact hgood

/-- Claim C6: For every tool call of a round, the events bearing its id occur
in the order: one `tool-call-start`, one `tool-name-delta`, zero or more
`tool-argument-delta`s, one `tool-input-available`, then at most one
`tool-output-available`; no event bearing that id follows the terminal
`tool-output-available` — for every schedule of the concurrent batch. -/
theorem c6_per_call_event_order (env : TurnEnv) (gate0 : Bool)
    (sched : List Nat) (parts : List GenPart) (c : CallRec)
    (hc : c ∈ (build env gate0 parts).calls) :
    ∃ tail,
      filterId c.id (runTurn env gate0 sched parts).events =
        Event.toolCallStart c.id c.id.index
          :: Event.toolNameDelta c.id (wireName c.fcName) c.id.index
          :: ((chunk10 (env.stringify c.args)).map
              (fun d => Event.toolArgumentDelta c.id d c.id.index)
            ++ Event.toolInputAvailable c.id (wireName c.fcName) c.args :: tail)
      ∧ (tail = [] ∨ ∃ out, tail = [Event.toolOutputAvailable c.id out]) := by
  obtain ⟨hP, hR, hD, hT⟩ := build_invariants env parts { gate := gate0 }
    (by intro c hc; simp at hc) (by intro e he; simp at he)
    (by intro c hc; simp at hc) (by intro j k c' c'' hj; simp at hj)
    (by intro c hc; simp at hc)
  have hPc : filterId c.id (build env gate0 parts).events =
      announceBlock env c ++ filterId c.id c.sync.events := hP c hc
  have hTc := hT c hc
  obtain ⟨j0, hj0⟩ := List.get?_of_mem hc
  -- the scheduled phase filtered to `c.id` is `c`'s own remaining events
  have hother : ∀ j, j ≠ j0 → ∀ segs,
      ((build env gate0 parts).calls.map CallRec.rest).get? j = some segs →
      ∀ seg ∈ segs, ∀ e ∈ seg.events, Event.callId? e ≠ some c.id := by
    intro j hj segs hget seg hseg e he
    rw [List.get?_map] at hget
    rcases hc' : (build env gate0 parts).calls.get? j with - | c'
    · rw [hc'] at hget
      exact Option.noConfusion hget
    · rw [hc'] at hget
      obtain rfl := Option.some.inj hget
      have hown := (hT c' (List.get?_mem hc')).1 e
        (List.mem_append_right _ (List.mem_flatten.mpr
          ⟨seg.events, List.mem_map.mpr ⟨seg, hseg, rfl⟩, he⟩))
      intro hEq
      rcases hown with h | h
      · rw [h] at hEq
        exact Option.noConfusion hEq
      · rw [h] at hEq
        obtain hid := Option.some.inj hEq
        exact hj (hD j j0 c' c hc' hj0 hid)
  have hsched := runSched_filter c.id sched
    ((build env gate0 parts).calls.map CallRec.rest) j0 hother
  rw [List.get?_map, hj0] at hsched
  simp only [Option.map_some', Option.getD_some] at hsched
  -- the settle phase carries no tool-call id
  have hcne : (build env gate0 parts).calls.isEmpty = false := by
    rcases h : (build env gate0 parts).calls with - | ⟨x, xs⟩
    · rw [h] at hc
      exact absurd hc (List.not_mem_nil c)
    · rfl
  rcases hR2 : runSched sched ((build env gate0 parts).calls.map CallRec.rest)
    with ⟨sevs, sps⟩
  rw [hR2] at hsched
  simp only at hsched
  have hmain : filterId c.id (runTurn env gate0 sched parts).events =
      announceBlock env c ++ filterId c.id (taskEvents c.sync c.rest) := by
    rcases hS : env.settle with ⟨img, d2⟩ | m
    · have hev : (runTurn env gate0 sched parts).events =
          (build env gate0 parts).events ++ sevs
            ++ [.screenshotUpdate img (some (resolutionX, resolutionY))] := by
        simp [runTurn, hcne, hS, hR2]
      rw [hev, filterId_append, filterId_append, hPc, hsched]
      have : filterId c.id [.screenshotUpdate img (some (resolutionX, resolutionY))] = [] := by
        simp [filterId, Event.callId?]
      rw [this, List.append_nil, taskEvents, filterId_append, List.append_assoc]
    · have hev : (runTurn env gate0 sched parts).events =
          (build env gate0 parts).events ++ sevs ++ [.errorEv m] := by
        simp [runTurn, hcne, hS, hR2]
      rw [hev, filterId_append, filterId_append, hPc, hsched]
      have : filterId c.id [.errorEv m] = [] := by
        simp [filterId, Event.callId?]
      rw [this, List.append_nil, taskEvents, filterId_append, List.append_assoc]
  rcases hTc.2 with htail | ⟨out, htail⟩
  · refine ⟨[], ?_, .inl rfl⟩
    rw [hmain, htail, List.append_nil]
    simp [announceBlock, announceEvents]
  · refine ⟨[.toolOutputAvailable c.id out], ?_, .inr ⟨out, rfl⟩⟩
    rw [hmain, htail]
    simp [announceBlock, announceEvents]

/-- Witness for C6 on the concrete one-bash-call turn. -/
theorem c6_per_call_event_order_witness :
    ∃ tail,
      filterId ⟨0, 7⟩ (runTurn envC1 false [0, 0] partsC1).events =
        Event.toolCallStart ⟨0, 7⟩ 0
          :: Event.toolNameDelta ⟨0, 7⟩ "bash" 0
          :: ((chunk10 "{}").map (fun d => Event.toolArgumentDelta ⟨0, 7⟩ d 0)
            ++ Event.toolInputAvailable ⟨0, 7⟩ "bash" { command := some "ls" } :: tail)
      ∧ (tail = [] ∨ ∃ out, tail = [Event.toolOutputAvailable ⟨0, 7⟩ out]) := by
  have h := c6_per_call_event_order envC1 false [0, 0] partsC1
    ⟨⟨0, 7⟩, "bash_command", { command := some "ls" },
      (execCall false "bash_command" ⟨0, 7⟩ (envC1.oras 0) { command := some "ls" }).2.1,
      (execCall false "bash_command" ⟨0, 7⟩ (envC1.oras 0) { command := some "ls" }).2.2⟩
    (by decide)
  simpa using h

/-! ### Client reducer: unknown tool ids are no-ops (C9) -/

theorem mutateTool_toolMap {ι τ : Type} [DecidableEq ι] (s : CState ι τ)
    (tid : String) (f : ToolInv → ToolInv) :
    (mutateTool s tid f).toolMap = s.toolMap := by
  unfold mutateTool
  split <;> rfl

theorem mutateTool_msgs_of_none {ι τ : Type} [DecidableEq ι] (s : CState ι τ)
    (tid : String) (f : ToolInv → ToolInv)
    (h : mapGet s.toolMap tid = none) : mutateTool s tid f = s := by
  unfold mutateTool
  rw [h]

/-- The ids introduced by `tool-call-start` events of a stream. -/
def startIds (evs : List CEvent) : List String :=
  evs.filterMap (fun e => match e with
    | .toolCallStart t => some t
    | _ => none)

theorem cstep_toolMap_sub {ι τ : Type} [DecidableEq ι]
    (parse : String → Option Args) (gen : Nat → ι × τ) (s : CState ι τ)
    (e : CEvent) (i : String) (hi : ∀ t, e = CEvent.toolCallStart t → t ≠ i)
    (h : mapGet s.toolMap i = none) :
    mapGet (cstep parse gen s e).toolMap i = none := by
  unfold cstep
  split
  · exact h
  · cases e with
    | textDelta d =>
      dsimp only
      split
      · exact h
      · split
        · split
          · exact h
          · exact h
        · exact h
    | toolCallStart t =>
      have ht : t ≠ i := hi t rfl
      dsimp only
      show mapGet ((t, (gen s.ctr).1) :: s.toolMap) i = none
      unfold mapGet
      rw [if_neg ht]
      exact h
    | toolNameDelta t n =>
      show mapGet (mutateTool s t _).toolMap i = none
      rw [mutateTool_toolMap]
      exact h
    | toolArgumentDelta t d =>
      show mapGet (mutateTool s t _).toolMap i = none
      rw [mutateTool_toolMap]
      exact h
    | toolInputAvailable t n input =>
      show mapGet (mutateTool s t _).toolMap i = none
      rw [mutateTool_toolMap]
      exact h
    | toolOutputAvailable t out =>
      show mapGet (mutateTool s t _).toolMap i = none
      rw [mutateTool_toolMap]
      exact h
    | screenshotUpdate sc rz => exact h
    | errorEv m => exact h
    | otherEv => exact h

/-- Folding a stream that never introduces id `i` leaves `i` out of the tool
message map. -/
theorem cfold_toolMap_none_aux {ι τ : Type} [DecidableEq ι]
    (parse : String → Option Args) (gen : Nat → ι × τ) (i : String) :
    ∀ (evs : List CEvent) (s : CState ι τ), i ∉ startIds evs →
      mapGet s.toolMap i = none →
      mapGet (evs.foldl (cstep parse gen) s).toolMap i = none := by
  intro evs
  induction evs with
  | nil => exact fun s _ hs => hs
  | cons e es ih =>
    intro s h hs
    simp only [List.foldl_cons]
    have h1 : i ∉ startIds es := by
      intro hm
      apply h
      unfold startIds at hm ⊢
      rw [List.filterMap_cons]
      cases e with
      | toolCallStart t =>
        exact List.mem_cons_of_mem _ hm
      | textDelta d => exact hm
      | toolNameDelta t n => exact hm
      | toolArgumentDelta t d => exact hm
      | toolInputAvailable t n input => exact hm
      | toolOutputAvailable t out => exact hm
      | screenshotUpdate sc rz => exact hm
      | errorEv m => exact hm
      | otherEv => exact hm
    have h2 : ∀ t, e = CEvent.toolCallStart t → t ≠ i := by
      rintro t rfl rfl
      apply h
      unfold startIds
      rw [List.filterMap_cons]
      exact List.mem_cons_self ..
    exact ih _ h1 (cstep_toolMap_sub parse gen s e i h2 hs)

/-- Folding a stream that never introduces id `i` leaves `i` out of the tool
message map. -/
theorem cfold_toolMap_none {ι τ : Type} [DecidableEq ι]
    (parse : String → Option Args) (gen : Nat → ι × τ) (evs : List CEvent)
    (i : String) (h : i ∉ startIds evs) :
    mapGet (cfold parse gen evs).toolMap i = none :=
  cfold_toolMap_none_aux parse gen i evs cInit h rfl

/-- Claim C9: A `tool-name-delta`, `tool-argument-delta`, `tool-input-available`
or `tool-output-available` event whose `toolCallId` was never introduced by a
prior `tool-call-start` leaves the reducer's message list completely
unchanged: the event is a no-op on the view, not an error and not a newly
created part. -/
theorem c9_unknown_id_noop {ι τ : Type} [DecidableEq ι]
    (parse : String → Option Args) (gen : Nat → ι × τ) (evs : List CEvent)
    (i : String) (h : i ∉ startIds evs) (name d : String) (input : Args)
    (out : ToolOutput) :
    (cstep parse gen (cfold parse gen evs) (.toolNameDelta i name)).msgs =
        (cfold parse gen evs).msgs
    ∧ (cstep parse gen (cfold parse gen evs) (.toolArgumentDelta i d)).msgs =
        (cfold parse gen evs).msgs
    ∧ (cstep parse gen (cfold parse gen evs) (.toolInputAvailable i name input)).msgs =
        (cfold parse gen evs).msgs
    ∧ (cstep parse gen (cfold parse gen evs) (.toolOutputAvailable i out)).msgs =
        (cfold parse gen evs).msgs := by
  have hmap := cfold_toolMap_none parse gen evs i h
  set s := cfold parse gen evs with hs
  have hmut : ∀ f, mutateTool s i f = s :=
    fun f => mutateTool_msgs_of_none s i f hmap
  by_cases hh : s.halted
  · refine ⟨?_, ?_, ?_, ?_⟩ <;> (unfold cstep ; rw [if_pos hh])
  · refine ⟨?_, ?_, ?_, ?_⟩ <;> (unfold cstep ; rw [if_neg hh]) <;>
      simp only [hmut]

/-- Witness for C9 at a concrete stream introducing only id `"a"`. -/
theorem c9_unknown_id_noop_witness :
    (cstep (fun _ => none) (fun n => (toString n, n))
        (cfold (fun _ => none) (fun n => (toString n, n)) [.toolCallStart "a"])
        (.toolNameDelta "b" "bash")).msgs =
      (cfold (fun _ => none) (fun n => (toString n, n)) [.toolCallStart "a"]).msgs :=
  (c9_unknown_id_noop (fun _ => none) (fun n => (toString n, n))
    [.toolCallStart "a"] "b" (by decide) "bash" "" Args.empty
    (.text "" none)).1

/-! ### Client reducer: determinism up to generated ids/timestamps (C3)

The reducer consults the clock and randomness only to mint message ids and
screenshot timestamps.  We show the fold with any injective generator is the
canonical fold (ids and timestamps replaced by the generation counter) with
every id and timestamp relabeled, so two replays agree exactly up to those
generated values — and a counterexample shows they genuinely differ on them. -/

/-- Relabel the timestamps of a message part. -/
def mapPart {τ τ' : Type} (g : τ → τ') : CPart τ → CPart τ'
  | .textPart s => .textPart s
  | .screenshotPart sc t rz => .screenshotPart sc (g t) rz
  | .toolPart inv => .toolPart inv

/-- Relabel the id and timestamps of a message. -/
def mapMsg {ι ι' τ τ' : Type} (f : ι → ι') (g : τ → τ') (m : CMsg ι τ) :
    CMsg ι' τ' :=
  { id := f m.id, role := m.role, content := m.content,
    parts := m.parts.map (List.map (mapPart g)) }

/-- Relabel all ids and timestamps of a reducer state. -/
def mapState {ι ι' τ τ' : Type} (f : ι → ι') (g : τ → τ') (s : CState ι τ) :
    CState ι' τ' :=
  { msgs := s.msgs.map (mapMsg f g),
    toolMap := s.toolMap.map (fun p => (p.1, f p.2)),
    currentTextId := s.currentTextId.map f,
    ctr := s.ctr, halted := s.halted }

theorem mapGet_map {ι ι' : Type} (f : ι → ι') (m : List (String × ι))
    (k : String) :
    mapGet (m.map (fun p => (p.1, f p.2))) k = (mapGet m k).map f := by
  induction m with
  | nil => rfl
  | cons p ps ih =>
    rcases p with ⟨k', v⟩
    simp only [List.map_cons, mapGet]
    by_cases hk : k' = k
    · rw [if_pos hk, if_pos hk]
      rfl
    · rw [if_neg hk, if_neg hk, ih]

theorem updFirst_map {α β : Type} (h : α → β) (p : β → Bool) (q : α → Bool)
    (u : β → β) (v : α → α) (l : List α)
    (hp : ∀ a, p (h a) = q a) (hu : ∀ a, q a = true → u (h a) = h (v a)) :
    updFirst p u (l.map h) = (updFirst q v l).map h := by
  induction l with
  | nil => rfl
  | cons x xs ih =>
    simp only [List.map_cons, updFirst, hp x]
    by_cases hq : q x = true
    · rw [if_pos hq, if_pos hq, hu x hq, List.map_cons]
    · rw [if_neg hq, if_neg hq, ih, List.map_cons]

theorem partIsTool_mapPart {τ τ' : Type} (g : τ → τ') (tid : String)
    (p : CPart τ) : partIsTool tid (mapPart g p) = partIsTool tid p := by
  cases p <;> rfl

theorem partUpd_mapPart {τ τ' : Type} (g : τ → τ') (fn : ToolInv → ToolInv)
    (p : CPart τ) : partUpd fn (mapPart g p) = mapPart g (partUpd fn p) := by
  cases p <;> rfl

theorem msgUpd_mapMsg {ι ι' τ τ' : Type} (f : ι → ι') (g : τ → τ')
    (tid : String) (fn : ToolInv → ToolInv) (m : CMsg ι τ) :
    msgUpd tid fn (mapMsg f g m) = mapMsg f g (msgUpd tid fn m) := by
  rcases m with ⟨mid2, mrole, mcontent, mparts⟩
  cases mparts with
  | none => rfl
  | some ps =>
    show msgUpd tid fn ⟨f mid2, mrole, mcontent, some (ps.map (mapPart g))⟩ =
      mapMsg f g (msgUpd tid fn ⟨mid2, mrole, mcontent, some ps⟩)
    unfold msgUpd
    simp only
    rw [show (ps.map (mapPart g)).isEmpty = ps.isEmpty from by cases ps <;> rfl]
    by_cases hemp : ps.isEmpty
    · rw [if_pos hemp, if_pos hemp]
      rfl
    · rw [if_neg hemp, if_neg hemp]
      rw [updFirst_map (mapPart g) (partIsTool tid) (partIsTool tid)
        (partUpd fn) (partUpd fn) ps (partIsTool_mapPart g tid)
        (fun a _ => partUpd_mapPart g fn a)]
      rfl

/-- `mutateToolInvocation` commutes with relabeling (the updater touches no
id or timestamp). -/
theorem mutateTool_mapState {ι τ : Type} [DecidableEq ι] (f : Nat → ι)
    (g : Nat → τ) (hf : Function.Injective f) (s : CState Nat Nat)
    (tid : String) (fn : ToolInv → ToolInv) :
    mutateTool (mapState f g s) tid fn = mapState f g (mutateTool s tid fn) := by
  unfold mutateTool
  show (match mapGet (s.toolMap.map fun p => (p.1, f p.2)) tid with
    | none => mapState f g s
    | some mid => _) = _
  rw [mapGet_map]
  cases hm : mapGet s.toolMap tid with
  | none => rfl
  | some mid =>
    simp only [Option.map_some']
    have hupd : updFirst (fun m => m.id = f mid) (msgUpd tid fn)
        (s.msgs.map (mapMsg f g)) =
        (updFirst (fun m => m.id = mid) (msgUpd tid fn) s.msgs).map (mapMsg f g) := by
      refine updFirst_map (mapMsg f g) _ _ _ _ s.msgs (fun m => ?_)
        (fun m _ => msgUpd_mapMsg f g tid fn m)
      show decide (f m.id = f mid) = decide (m.id = mid)
      exact decide_eq_decide.mpr ⟨fun hEq => hf hEq, fun hEq => congrArg f hEq⟩
    show ({ mapState f g s with
        msgs := updFirst (fun m => m.id = f mid) (msgUpd tid fn)
          (s.msgs.map (mapMsg f g)) } : CState ι τ) = _
    rw [hupd]
    rfl

theorem mapState_setCtid {ι τ : Type} (f : Nat → ι) (g : Nat → τ)
    (X : CState Nat Nat) :
    mapState f g { X with currentTextId := none } =
      { mapState f g X with currentTextId := none } := by
  rcases X with ⟨a, b, c, d, e⟩
  rfl

/-- One reducer step commutes with relabeling: the generator is consulted
only for the minted id/timestamp values, never for control flow. -/
theorem cstep_mapState {ι τ : Type} [DecidableEq ι]
    (parse : String → Option Args) (f : Nat → ι) (g : Nat → τ)
    (hf : Function.Injective f) (s : CState Nat Nat) (e : CEvent) :
    cstep parse (fun n => (f n, g n)) (mapState f g s) e =
      mapState f g (cstep parse (fun n => (n, n)) s e) := by
  have hdec : ∀ (a cid : Nat), (decide (f a = f cid)) = (decide (a = cid)) :=
    fun a cid => decide_eq_decide.mpr ⟨fun h2 => hf h2, fun h2 => congrArg f h2⟩
  rcases s with ⟨msgs, tmap, cid?, ctr, hal⟩
  unfold cstep
  dsimp only [mapState]
  by_cases hh : hal = true
  · rw [if_pos hh, if_pos hh]
  · rw [if_neg hh, if_neg hh]
    cases e with
    | textDelta d =>
      dsimp only
      by_cases hd : d = ""
      · rw [if_pos hd, if_pos hd]
      · rw [if_neg hd, if_neg hd]
        cases cid? with
        | none =>
          dsimp only [Option.map_none']
          simp [mapState, mapMsg]
        | some cid =>
          dsimp only [Option.map_some']
          have hany : (msgs.map (mapMsg f g)).any (fun m => m.id = f cid) =
              msgs.any (fun m => m.id = cid) := by
            induction msgs with
            | nil => rfl
            | cons m ms ih =>
              simp only [List.map_cons, List.any_cons, ih]
              exact congrArg (fun b => b || ms.any fun m => decide (m.id = cid))
                (hdec m.id cid)
          rw [hany]
          by_cases ha : msgs.any (fun m => m.id = cid) = true
          · rw [if_pos ha, if_pos ha]
            have hupd := updFirst_map (mapMsg f g)
              (fun m => m.id = f cid) (fun m => m.id = cid)
              (fun m => { m with content := m.content ++ d })
              (fun m => { m with content := m.content ++ d }) msgs
              (fun m => hdec m.id cid) (fun m _ => rfl)
            dsimp only
            rw [hupd]
            rfl
          · rw [if_neg ha, if_neg ha]
            simp [mapState, mapMsg]
    | toolCallStart tid =>
      dsimp only
      simp [mapState, mapMsg, mapPart]
    | toolNameDelta tid n =>
      dsimp only
      exact mutateTool_mapState f g hf ⟨msgs, tmap, cid?, ctr, hal⟩ tid _
    | toolArgumentDelta tid d =>
      dsimp only
      exact mutateTool_mapState f g hf ⟨msgs, tmap, cid?, ctr, hal⟩ tid _
    | toolInputAvailable tid n input =>
      dsimp only
      exact (congrArg (fun X : CState ι τ => { X with currentTextId := none })
        (mutateTool_mapState f g hf ⟨msgs, tmap, cid?, ctr, hal⟩ tid
          (fun inv => { inv with args := input, tstate := "call" }))).trans
        (mapState_setCtid f g _).symm
    | toolOutputAvailable tid out =>
      dsimp only
      exact (congrArg (fun X : CState ι τ => { X with currentTextId := none })
        (mutateTool_mapState f g hf ⟨msgs, tmap, cid?, ctr, hal⟩ tid
          (fun inv => { inv with tstate := "result", result := some out }))).trans
        (mapState_setCtid f g _).symm
    | screenshotUpdate sc rz =>
      dsimp only
      simp [mapState, mapMsg, mapPart]
    | errorEv m => rfl
    | otherEv => rfl

/-- The fold with an arbitrary (injective-id) generator is the canonical fold
with all generated ids and timestamps relabeled. -/
theorem cfold_mapState {ι τ : Type} [DecidableEq ι]
    (parse : String → Option Args) (f : Nat → ι) (g : Nat → τ)
    (hf : Function.Injective f) (evs : List CEvent) :
    cfold parse (fun n => (f n, g n)) evs =
      mapState f g (cfold parse (fun n => (n, n)) evs) := by
  have H : ∀ s : CState Nat Nat,
      evs.foldl (cstep parse (fun n => (f n, g n))) (mapState f g s) =
        mapState f g (evs.foldl (cstep parse (fun n => (n, n))) s) := by
    induction evs with
    | nil => exact fun s => rfl
    | cons e es ih =>
      intro s
      simp only [List.foldl_cons]
      rw [cstep_mapState parse f g hf s e]
      exact ih _
  have h0 : mapState f g (cInit : CState Nat Nat) = (cInit : CState ι τ) := rfl
  have := H cInit
  rw [h0] at this
  exact this

/-- The observable view of the reducer state: the message list with the
generated ids and timestamps erased (the rendered transcript — roles,
text content, parts, tool invocations, screenshot payloads — is untouched). -/
def observe {ι τ : Type} (s : CState ι τ) : List (CMsg Unit Unit) :=
  s.msgs.map (mapMsg (fun _ => ()) (fun _ => ()))

theorem observe_mapState {ι τ : Type} (f : Nat → ι) (g : Nat → τ)
    (s : CState Nat Nat) : observe (mapState f g s) = observe s := by
  simp only [observe, mapState, List.map_map]
  congr 1
  funext m
  show mapMsg (fun _ => ()) (fun _ => ()) (mapMsg f g m) =
    mapMsg (fun _ => ()) (fun _ => ()) m
  rcases m with ⟨mi, mr, mc, mp⟩
  cases mp with
  | none => rfl
  | some ps =>
    show (⟨(), mr, mc, some ((ps.map (mapPart g)).map (mapPart (fun _ => ())))⟩ :
        CMsg Unit Unit) = ⟨(), mr, mc, some (ps.map (mapPart (fun _ => ())))⟩
    rw [List.map_map]
    have hcomp : (mapPart (fun _ => ())) ∘ (mapPart g) =
        (mapPart (fun _ => ()) : CPart Nat → CPart Unit) :=
      funext fun p => by cases p <;> rfl
    rw [hcomp]

/-- Claim C3 (amended): Replaying an event sequence from the empty state is
deterministic up to the clock/random-generated message identifiers and
screenshot timestamps: for any two injective generator instantiations (two
replays), the resulting `ClientViewState`s agree after erasing the generated
ids and timestamps — the reducer has no clock- or random-derived *branching*,
only clock/random-derived identifier and timestamp field values. -/
theorem c3_deterministic_mod_generated {ι₁ τ₁ ι₂ τ₂ : Type} [DecidableEq ι₁]
    [DecidableEq ι₂] (parse : String → Option Args)
    (gen₁ : Nat → ι₁ × τ₁) (gen₂ : Nat → ι₂ × τ₂)
    (h₁ : Function.Injective fun n => (gen₁ n).1)
    (h₂ : Function.Injective fun n => (gen₂ n).1) (evs : List CEvent) :
    observe (cfold parse gen₁ evs) = observe (cfold parse gen₂ evs) := by
  have e₁ : cfold parse gen₁ evs =
      cfold parse (fun n => ((gen₁ n).1, (gen₁ n).2)) evs := rfl
  have e₂ : cfold parse gen₂ evs =
      cfold parse (fun n => ((gen₂ n).1, (gen₂ n).2)) evs := rfl
  rw [e₁, e₂, cfold_mapState parse _ _ h₁ evs, cfold_mapState parse _ _ h₂ evs,
    observe_mapState, observe_mapState]

/-- Witness for C3 (amended) at two concrete distinct generators. -/
theorem c3_deterministic_mod_generated_witness :
    observe (cfold (fun _ => none) (fun n => (n, 0)) [CEvent.screenshotUpdate "s" none]) =
      observe (cfold (fun _ => none) (fun n => (n + 5, 1)) [CEvent.screenshotUpdate "s" none]) :=
  c3_deterministic_mod_generated (fun _ => none) (fun n => (n, 0))
    (fun n => (n + 5, 1)) (fun a b h => h) (fun a b h => by simpa using h)
    [CEvent.screenshotUpdate "s" none]

/-- Claim C3 (counterexample): Replaying the identical event sequence does
*not* yield a bit-identical final state: the reducer stamps each screenshot
part with `Date.now()` and mints message ids from `Date.now()`/
`Math.random()`, so two replays under clocks reading `0` and `1` disagree on
the stored timestamp (and ids).  The claim as stated — identical final
`ClientViewState` on replay — is false. -/
theorem c3_counterexample :
    cfold (fun _ => none) (fun n => (toString n, 0)) [CEvent.screenshotUpdate "s" none] ≠
      cfold (fun _ => none) (fun n => (toString n, 1)) [CEvent.screenshotUpdate "s" none] := by
  decide

end GemCopilot
